import Mathlib

/-!
# Verification of the flame-ftrack batch hierarchy creation workflow

Shallow embedding of the batch shot/task creation workflow of the
flame-ftrack integration repository:

* `FtrackConnection.create_shots_from_table` and its helpers
  (`_create_shot_entity`, `get_or_create_sequence`, `create_task`,
  `create_conform_task`, `upload_thumbnail`) from
  `src/ftrack_api/ftrack_wrapper.py`;
* `FtrackManager.create_shot` and `FtrackManager._discover_status_name`
  together with `normalize_status_name` from `src/core/ftrack_manager.py`.

The external entity store (the ftrack session) is modelled as an explicit
state: a list of committed entities plus a list of pending (created but not
yet committed) entities and a fresh-id counter.  Store failures are injected
through an `Env` of boolean oracles; a failing create-and-commit is modelled
as the server rejecting the entity, leaving the committed state unchanged
(the Python client keeps no durable effect of the rejected operation either,
because every successful path commits immediately and the failure paths under
study either roll back or abandon the batch item).
-/

namespace FlameFtrack

/-- A tracker-side entity (`Project`, `Sequence`, `Folder`, `Shot`, `Task`,
`Status`, `Type`, ...).  Only the fields the workflow reads are modelled:
`id`, the entity-type discriminator, `name`, the parent reference and
`description`. -/
structure Entity where
  id : Nat
  etype : String
  name : String
  parentId : Option Nat
  description : String
deriving DecidableEq, Repr

/-- The entity store: committed (server-visible) entities, pending entities
created since the last commit/rollback, and the next fresh id. -/
structure Store where
  committed : List Entity
  pending : List Entity
  nextId : Nat
deriving DecidableEq, Repr

/-- `session.query('<etype> where name is "<name>" and parent.id is "<pid>"').first()`:
first committed entity of the given type with the given name under the given
parent. -/
def queryFirst (st : Store) (etype name : String) (pid : Nat) : Option Entity :=
  st.committed.find? fun e => e.etype == etype && e.name == name && e.parentId == some pid

/-- `session.get('<etype>', id)`: committed entity of the given type with the
given id. -/
def getById (st : Store) (etype : String) (eid : Nat) : Option Entity :=
  st.committed.find? fun e => e.etype == etype && e.id == eid

/-- `session.get('TypedContext', id)`: committed non-project entity with the
given id (in ftrack every Sequence/Folder/Shot/Task is a `TypedContext`, a
`Project` is not). -/
def getTyped (st : Store) (eid : Nat) : Option Entity :=
  st.committed.find? fun e => e.etype != "Project" && e.id == eid

/-- `session.create(etype, fields)`: allocate a fresh id and add the entity to
the pending list. -/
def sessionCreate (st : Store) (etype name : String) (pid : Option Nat) (desc : String) :
    Entity × Store :=
  let e : Entity := ⟨st.nextId, etype, name, pid, desc⟩
  (e, { st with pending := st.pending ++ [e], nextId := st.nextId + 1 })

/-- `session.commit()`: persist all pending entities. -/
def commitS (st : Store) : Store :=
  ⟨st.committed ++ st.pending, [], st.nextId⟩

/-- `session.rollback()`: discard all pending entities. -/
def rollbackS (st : Store) : Store :=
  { st with pending := [] }

/-- `session.create` immediately followed by a successful `session.commit()` —
the shape every successful creation in the wrapper takes. -/
def createCommit (st : Store) (etype name : String) (pid : Option Nat) (desc : String) :
    Entity × Store :=
  let p := sessionCreate st etype name pid desc
  (p.1, commitS p.2)

/-- Failure-injection oracles for the store session.  Each oracle decides
whether the corresponding create-and-commit round trip raises; a raising
round trip is modelled as the server rejecting the entity with the committed
state unchanged.  `fileExists` models `os.path.exists` and `thumbOk` the
result of `upload_thumbnail` (which catches internally and returns a bool). -/
structure Env where
  failProjectGet : Bool
  failSeqCreate : String → Bool
  failFolderCreate : String → Bool
  failShotCreate : String → Bool
  failTaskCreate : String → Bool
  failConformCreate : Nat → Bool
  fileExists : String → Bool
  thumbOk : String → Bool

/-- The fully benign session environment, parameterised by the filesystem and
thumbnail-upload oracles (which never raise in the source). -/
def benignEnv (fileEx thOk : String → Bool) : Env :=
  { failProjectGet := false
    failSeqCreate := fun _ => false
    failFolderCreate := fun _ => false
    failShotCreate := fun _ => false
    failTaskCreate := fun _ => false
    failConformCreate := fun _ => false
    fileExists := fileEx
    thumbOk := thOk }

/-- The value of the `Task Types` field of an input row: either a
comma-separated string or an explicit list. -/
inductive TaskTypesVal where
  | str (s : String)
  | lst (l : List String)
deriving DecidableEq, Repr

/-- One row of the interface table handed to `create_shots_from_table`
(a Python dict; `none` models an absent key). -/
structure ShotData where
  sequence : Option String
  shotName : Option String
  taskTypes : Option TaskTypesVal
  status : Option String
  description : Option String
  thumbnailPath : Option String
deriving DecidableEq, Repr

/-- The result dict produced by `create_shots_from_table`. -/
structure BatchResult where
  success : Bool
  dryRun : Bool
  projectName : Option String
  sequencesCreated : Nat
  shotsCreated : Nat
  shotsExisted : Nat
  tasksCreated : Nat
  conformTasksCreated : Nat
  thumbnailsUploaded : Nat
  errors : List String
  warnings : List String
deriving DecidableEq, Repr

/-- The result dict as initialised at the top of `create_shots_from_table`. -/
def initResult (dryRun : Bool) : BatchResult :=
  { success := true
    dryRun := dryRun
    projectName := none
    sequencesCreated := 0
    shotsCreated := 0
    shotsExisted := 0
    tasksCreated := 0
    conformTasksCreated := 0
    thumbnailsUploaded := 0
    errors := []
    warnings := [] }

/-- Python `f"{n:03d}"`: decimal with at least three digits. -/
def pad3 (n : Nat) : String :=
  if n < 10 then "00" ++ toString n
  else if n < 100 then "0" ++ toString n
  else toString n

/-- `[t.strip() for t in s.split(",") if t.strip()]`. -/
def splitTrim (s : String) : List String :=
  ((s.splitOn ",").map String.trim).filter fun t => t ≠ ""

/-- `task_types = shot_data.get("Task Types", [])` followed by the
split-if-string normalisation in `create_shots_from_table`. -/
def parseTaskTypes : Option TaskTypesVal → List String
  | none => []
  | some (.str s) => splitTrim s
  | some (.lst l) => l

/-- `task_type.lower().replace(" ", "_")` (ftrack_wrapper.py:1327) — the task
name a user task type is lowered to; the one-character replacement is
rendered character-wise. -/
def toTaskName (tt : String) : String :=
  String.mk (tt.data.map fun c => if c = ' ' then '_' else Char.toLower c)

/-- The shot name a row resolves to at a given (1-based) global step:
`shot_data.get("Shot Name", f"SHOT_{current_step:03d}")`. -/
def resolvedName (step : Nat) (sd : ShotData) : String :=
  sd.shotName.getD ("SHOT_" ++ pad3 step)

/-- The dict returned by `FtrackConnection._create_shot_entity`:
`{'id': ..., 'name': ..., 'existed': ...}`.  The dry-run branch of the batch
builds a dict without the `existed` key; `shot.get('existed')` then yields a
falsy value, which is modelled as `existed := false`. -/
structure ShotRes where
  id : Nat
  name : String
  existed : Bool
deriving DecidableEq, Repr

namespace FtrackConnection

/-- `FtrackConnection.get_or_create_sequence` (ftrack_wrapper.py:346-403):
look the sequence up by name under the project, then as a `Folder`; if
neither exists create a `Sequence` (falling back to a `Folder` when the
sequence create raises, and re-raising when the folder fallback raises too).
The queries filter on `project.id`; for sequences directly under the project
that coincides with the parent reference modelled here. -/
def get_or_create_sequence (env : Env) (st : Store) (projectId : Nat) (name : String) :
    Except String (Entity × Store) :=
  match queryFirst st "Sequence" name projectId with
  | some e => .ok (e, st)
  | none =>
    match queryFirst st "Folder" name projectId with
    | some e => .ok (e, st)
    | none =>
      if env.failSeqCreate name then
        -- the Sequence create raised: rollback, then try a Folder
        if env.failFolderCreate name then
          -- the Folder create raised as well: rollback and re-raise
          .error ("Folder create failed: " ++ name)
        else
          .ok (createCommit st "Folder" name (some projectId) "")
      else
        .ok (createCommit st "Sequence" name (some projectId) "")

/-- `FtrackConnection._create_shot_entity` (ftrack_wrapper.py:1371-1402):
query the shot by name under the parent; if found return it (no field of the
existing entity is touched), else create-and-commit a new shot.  There is no
`try`/`except` in the source, so a store failure propagates to the caller. -/
def _create_shot_entity (env : Env) (st : Store) (parentId : Nat) (name desc : String) :
    Except String (ShotRes × Store) :=
  match queryFirst st "Shot" name parentId with
  | some e => .ok (⟨e.id, e.name, true⟩, st)
  | none =>
    if env.failShotCreate name then
      .error ("server rejected shot " ++ name)
    else
      let p := createCommit st "Shot" name (some parentId) desc
      .ok (⟨p.1.id, p.1.name, false⟩, p.2)

/-- `FtrackConnection.create_task` (ftrack_wrapper.py:529-569): look up the
parent, the `Type` and the `Status` entities (reads whose results only pick
the references attached to the task, which this entity model does not store),
then create-and-commit the task.  A raising create-and-commit is reported as
an error to the caller. -/
def create_task (env : Env) (st : Store) (parentId : Nat)
    (taskType taskStatus : String) (taskName : Option String) (desc : String) :
    Except String ((Nat × String) × Store) :=
  let _parent := getTyped st parentId
  let name := taskName.getD taskType
  let _typeEntity :=
    (st.committed.find? fun e => e.etype == "Type" && e.name == taskType).orElse
      fun _ => st.committed.find? fun e => e.etype == "Type"
  let _statusEntity :=
    (st.committed.find? fun e => e.etype == "Status" && e.name == taskStatus).orElse
      fun _ => st.committed.find? fun e => e.etype == "Status"
  if env.failTaskCreate name then
    .error ("server rejected task " ++ name)
  else
    let p := createCommit st "Task" name (some parentId) desc
    .ok ((p.1.id, p.1.name), p.2)

/-- The description string `create_conform_task` writes on the task it
creates. -/
def conformDesc : String := "Auto-created conform task from Flame integration"

/-- `FtrackConnection.create_conform_task` (ftrack_wrapper.py:607-720): find
the parent (returning `None` when absent), scan the common spellings for the
`Conform` type and the `Pending Review` status (reads that only pick attached
references), then create-and-commit the task named `conform`.  The whole body
is wrapped in `try`/`except ... return None`, so a store failure yields
`none` and never propagates. -/
def create_conform_task (env : Env) (st : Store) (parentId : Nat) :
    Option ((Nat × String) × Store) :=
  match getTyped st parentId with
  | none => none
  | some _parent =>
    let _typeEntity :=
      (["Conform", "Conform", "conform", "CONFORM", "Conforming"].firstM fun tn =>
        st.committed.find? fun e => e.etype == "Type" && e.name == tn).orElse
        fun _ => st.committed.find? fun e => e.etype == "Type"
    let _statusEntity :=
      (["Pending Review", "pending_review", "Pending review", "pending review",
        "PENDING REVIEW", "PendingReview", "Awaiting Review", "Review",
        "To Review"].firstM fun sn =>
        st.committed.find? fun e => e.etype == "Status" && e.name == sn).orElse
        fun _ => st.committed.find? fun e => e.etype == "Status"
    if env.failConformCreate parentId then
      none
    else
      let p := createCommit st "Task" "conform" (some parentId) conformDesc
      some ((p.1.id, p.1.name), p.2)

/-- `FtrackConnection.upload_thumbnail` (ftrack_wrapper.py:726-773): checks
the file, resolves the entity and uploads a thumbnail component; catches
internally and returns a bool.  The uploaded component is outside the
modelled entity set, so the store is unchanged. -/
def upload_thumbnail (env : Env) (st : Store) (entityId : Nat) (path : String) : Bool :=
  if !env.fileExists path then false
  else
    match getTyped st entityId with
    | none => false
    | some _ => env.thumbOk path

end FtrackConnection

/-- Per-task loop of `create_shots_from_table` (ftrack_wrapper.py:1318-1332):
each task type gets its own `try`/`except`; a failing task only appends a
warning and never blocks the remaining tasks. -/
def processTasks (env : Env) (dryRun : Bool) (shotId : Nat) (shotName status : String) :
    List String → Store → BatchResult → Store × BatchResult
  | [], st, r => (st, r)
  | tt :: rest, st, r =>
    if dryRun then
      processTasks env dryRun shotId shotName status rest st
        { r with tasksCreated := r.tasksCreated + 1 }
    else
      match FtrackConnection.create_task env st shotId tt status
          (some (toTaskName tt)) "" with
      | .ok (_, st') =>
        processTasks env dryRun shotId shotName status rest st'
          { r with tasksCreated := r.tasksCreated + 1 }
      | .error _ =>
        processTasks env dryRun shotId shotName status rest st
          { r with warnings := r.warnings ++ ["Task not created: " ++ shotName ++ "/" ++ tt] }

/-- Conform-task block of the per-shot loop (ftrack_wrapper.py:1296-1311):
only when the shot did not already exist, create the mandatory conform task
(dry runs merely count it); a `None` result from `create_conform_task` means
its internal handler swallowed a failure, so nothing is counted and the
outer `except` never fires. -/
def conformStep (env : Env) (dryRun : Bool) (shot : ShotRes) (st : Store) (r : BatchResult) :
    Store × BatchResult :=
  if shot.existed then (st, r)
  else if dryRun then
    (st, { r with conformTasksCreated := r.conformTasksCreated + 1 })
  else
    match FtrackConnection.create_conform_task env st shot.id with
    | some (_, st2) =>
      (st2, { r with conformTasksCreated := r.conformTasksCreated + 1 })
    | none => (st, r)

/-- Thumbnail block of the per-shot loop (ftrack_wrapper.py:1334-1342):
upload only when a path is given (non-empty — Python truthiness) and the
file exists. -/
def thumbStep (env : Env) (dryRun : Bool) (shotId : Nat) (thumbPath : Option String)
    (st : Store) (r : BatchResult) : Store × BatchResult :=
  match thumbPath with
  | none => (st, r)
  | some p =>
    if p != "" && env.fileExists p then
      if dryRun then
        (st, { r with thumbnailsUploaded := r.thumbnailsUploaded + 1 })
      else if FtrackConnection.upload_thumbnail env st shotId p then
        (st, { r with thumbnailsUploaded := r.thumbnailsUploaded + 1 })
      else (st, r)
    else (st, r)

/-- Body of the per-shot loop of `create_shots_from_table`
(ftrack_wrapper.py:1259-1347) for one row, called with the already
incremented `current_step`.  The only operation that can raise to the
shot-level handler is `_create_shot_entity`; conform-task failures are
swallowed inside `create_conform_task`, task failures are caught per task,
and `upload_thumbnail` returns a bool. -/
def processShot (env : Env) (dryRun : Bool) (seqId : Nat) (seqName : String)
    (step : Nat) (sd : ShotData) (st : Store) (r : BatchResult) : Store × BatchResult :=
  let shotName := resolvedName step sd
  let shotRes : Except String (ShotRes × Store) :=
    if dryRun then .ok (⟨0, shotName, false⟩, st)
    else FtrackConnection._create_shot_entity env st seqId shotName (sd.description.getD "")
  match shotRes with
  | .error e =>
    (st, { r with errors := r.errors ++ ["Error creating shot " ++ shotName ++ ": " ++ e] })
  | .ok (shot, st1) =>
    let r1 :=
      if dryRun then { r with shotsCreated := r.shotsCreated + 1 }
      else if shot.existed then
        { r with shotsExisted := r.shotsExisted + 1,
                 warnings := r.warnings ++ ["Shot already existed: " ++ seqName ++ "/" ++ shotName] }
      else { r with shotsCreated := r.shotsCreated + 1 }
    let q2 := conformStep env dryRun shot st1 r1
    let q3 :=
      processTasks env dryRun shot.id shotName (sd.status.getD "not_started")
        (parseTaskTypes sd.taskTypes) q2.1 q2.2
    thumbStep env dryRun shot.id sd.thumbnailPath q3.1 q3.2

/-- Per-shot loop over one sequence group, threading the global
`current_step` counter. -/
def processShots (env : Env) (dryRun : Bool) (seqId : Nat) (seqName : String) :
    List ShotData → Nat → Store → BatchResult → Store × BatchResult × Nat
  | [], step, st, r => (st, r, step)
  | sd :: rest, step, st, r =>
    let q := processShot env dryRun seqId seqName (step + 1) sd st r
    processShots env dryRun seqId seqName rest (step + 1) q.1 q.2

/-- Per-sequence-group loop of `create_shots_from_table`
(ftrack_wrapper.py:1238-1347).  Dry runs use a fake sequence dict whose id is
never consulted; a failing sequence reconciliation records one error and
skips the whole group (the `continue` leaves `current_step` untouched for the
skipped shots). -/
def processGroups (env : Env) (dryRun : Bool) (projectId : Nat) :
    List (String × List ShotData) → Nat → Store → BatchResult → Store × BatchResult × Nat
  | [], step, st, r => (st, r, step)
  | (sn, sds) :: gs, step, st, r =>
    if dryRun then
      let q := processShots env true 0 sn sds step st
        { r with sequencesCreated := r.sequencesCreated + 1 }
      processGroups env true projectId gs q.2.2 q.1 q.2.1
    else
      match FtrackConnection.get_or_create_sequence env st projectId sn with
      | .error e =>
        processGroups env false projectId gs step st
          { r with errors := r.errors ++ ["Error creating sequence " ++ sn ++ ": " ++ e] }
      | .ok (seqE, st1) =>
        let q := processShots env false seqE.id sn sds step st1
          { r with sequencesCreated := r.sequencesCreated + 1 }
        processGroups env false projectId gs q.2.2 q.1 q.2.1

/-- Insert one row into the insertion-ordered grouping map
(`sequences_map`). -/
def insertGroup : List (String × List ShotData) → String → ShotData →
    List (String × List ShotData)
  | [], k, sd => [(k, [sd])]
  | (k', l) :: rest, k, sd =>
    if k' = k then (k', l ++ [sd]) :: rest
    else (k', l) :: insertGroup rest k sd

/-- `sequences_map` construction (ftrack_wrapper.py:1227-1232): group the
rows by `shot_data.get("Sequence", "DEFAULT_SEQ")`, keeping first-seen order
of the distinct sequence names and list order inside each group. -/
def groupBySequence : List ShotData → List (String × List ShotData) →
    List (String × List ShotData)
  | [], acc => acc
  | sd :: rest, acc =>
    groupBySequence rest (insertGroup acc (sd.sequence.getD "DEFAULT_SEQ") sd)

/-- Grouping, group loop and the final `success` recomputation
(ftrack_wrapper.py:1226-1350), shared by the two validation outcomes.  The
outer `try`/`except` around the loop only fires for exceptions that escape
the inner handlers (e.g. a raising `progress_callback`, which is not part of
the modelled state) and is therefore not reachable here. -/
def runBatchBody (env : Env) (st : Store) (projectId : Nat)
    (shotsData : List ShotData) (dryRun : Bool) (r : BatchResult) :
    BatchResult × Store :=
  let q := processGroups env dryRun projectId (groupBySequence shotsData []) 0 st r
  let r' := q.2.1
  let r'' :=
    if r'.errors ≠ [] then
      { r' with success := decide (r'.errors.length < shotsData.length) }
    else r'
  (r'', q.1)

/-- `FtrackConnection.create_shots_from_table` (ftrack_wrapper.py:1121-1369).
The optional project validation returns immediately with `success := false`
and a single error when the project cannot be found or the lookup raises.
The project-status advisory check only ever appends a warning and reads a
field outside the modelled entity (its `status` relation); it is modelled as
producing no warning. -/
def create_shots_from_table (env : Env) (st : Store) (projectId : Nat)
    (shotsData : List ShotData) (dryRun : Bool) (validateProject : Bool) :
    BatchResult × Store :=
  let r0 := initResult dryRun
  if validateProject then
    if env.failProjectGet then
      ({ r0 with success := false,
                 errors := ["Error validating project: store exception"] }, st)
    else
      match getById st "Project" projectId with
      | none =>
        ({ r0 with success := false,
                   errors := ["Project not found: " ++ toString projectId] }, st)
      | some project =>
        runBatchBody env st projectId shotsData dryRun
          { r0 with projectName := some project.name }
  else
    runBatchBody env st projectId shotsData dryRun r0

/-- `normalize_status_name` (ftrack_manager.py:103-128): lowercase, then
remove underscores and spaces; the empty/falsy input short-circuits to
`""`.  `str.replace("_", "")`/`str.replace(" ", "")` on one-character
patterns is exactly character filtering, so the composition is rendered as a
character-level map-and-filter. -/
def normalize_status_name (status : String) : String :=
  if status = "" then ""
  else String.mk ((status.data.map Char.toLower).filter fun c => c ≠ '_' ∧ c ≠ ' ')

namespace FtrackManager

/-- `key in dict` / `dict[key]` on `_discovered_status_cache`, an
insertion-ordered mapping from normalized status name to the discovered
server spelling (`none` records a negative result). -/
def lookupCache (cache : List (String × Option String)) (k : String) :
    Option (Option String) :=
  (cache.find? fun p => p.1 == k).map Prod.snd

/-- `FtrackManager._discover_status_name` (ftrack_manager.py:1648-1703).
`statuses` is the list of `Status` entity names on the server and `failQuery`
injects a raising `session.query('Status').all()`.  Returns the discovered
name, the updated `_discovered_status_cache`, and how many store queries the
call issued.  A session is assumed present (the no-session guard returns
`None` before any query and never touches the cache). -/
def _discover_status_name (failQuery : Bool) (statuses : List String)
    (cache : List (String × Option String)) (canonical : String) :
    Option String × List (String × Option String) × Nat :=
  let target := normalize_status_name canonical
  match lookupCache cache target with
  | some v => (v, cache, 0)
  | none =>
    if failQuery then
      -- the query raised: log and return None, caching nothing
      (none, cache, 1)
    else
      match statuses.find? fun n => normalize_status_name n == target with
      | some n => (some n, cache ++ [(target, some n)], 1)
      | none => (none, cache ++ [(target, none)], 1)

/-- `FtrackManager.create_shot` (ftrack_manager.py:731-780): query first and
return the existing shot when found; otherwise create and commit inside a
`try` whose handler rolls back and returns `None`.  The `Except` layer of the
result makes the exception flow explicit: the function catches every store
exception itself, so its result is always `Except.ok` — a re-raise to the
caller would be an `Except.error`, which no branch produces.  Mock mode and
the missing-session/ missing-parent guards are outside the modelled
configuration. -/
def create_shot (env : Env) (st : Store) (parentId : Nat) (shotName desc : String) :
    Except String (Option Entity) × Store :=
  match queryFirst st "Shot" shotName parentId with
  | some e => (Except.ok (some e), st)
  | none =>
    let p := sessionCreate st "Shot" shotName (some parentId) desc
    if env.failShotCreate shotName then
      -- the commit raised: `except` logs, rolls back and returns None
      (Except.ok none, rollbackS p.2)
    else
      (Except.ok (some p.1), commitS p.2)

end FtrackManager

/-! ## Derived notions used in the statements -/

/-- A store holding exactly one project entity — the "empty store" of the
spec (no sequences, shots or tasks yet). -/
def projectStore (pid : Nat) : Store :=
  ⟨[⟨pid, "Project", "PROJ", none, ""⟩], [], pid + 1⟩

/-- Store sanity: no pending entities, every committed id is below the
fresh-id counter, and every parent reference points below the counter. -/
def StoreWf (st : Store) : Prop :=
  st.pending = [] ∧
    ∀ e ∈ st.committed, e.id < st.nextId ∧ ∀ p, e.parentId = some p → p < st.nextId

/-- The store only ever grows: committed entities are append-only, pending is
unchanged and the fresh-id counter is monotone. -/
def Ext (st st' : Store) : Prop :=
  st'.pending = st.pending ∧ st.nextId ≤ st'.nextId ∧
    ∃ ext, st'.committed = st.committed ++ ext

/-- The shot names a group's rows resolve to, starting after global step
`step`. -/
def resolvedShots : List ShotData → Nat → List String
  | [], _ => []
  | sd :: rest, step => resolvedName (step + 1) sd :: resolvedShots rest (step + 1)

/-- The `(sequence, shot)` name pairs an entire grouped batch resolves to. -/
def resolvedPairs : List (String × List ShotData) → Nat → List (String × String)
  | [], _ => []
  | (sn, sds) :: gs, step =>
    (resolvedShots sds step).map (fun n => (sn, n)) ++ resolvedPairs gs (step + sds.length)

/-- Total number of rows in a grouped batch. -/
def totalShots (gs : List (String × List ShotData)) : Nat :=
  (gs.map fun g => g.2.length).sum

/-- Number of user tasks the rows of one group request, counting only rows
whose resolved shot name survives the failure oracle `f`. -/
def taskTotal (f : String → Bool) : List ShotData → Nat → Nat
  | [], _ => 0
  | sd :: rest, step =>
    (if f (resolvedName (step + 1) sd) then 0 else (parseTaskTypes sd.taskTypes).length) +
      taskTotal f rest (step + 1)

/-- `taskTotal` summed over a grouped batch. -/
def taskTotalGroups (f : String → Bool) : List (String × List ShotData) → Nat → Nat
  | [], _ => 0
  | (_, sds) :: gs, step => taskTotal f sds step + taskTotalGroups f gs (step + sds.length)

/-- Every row of the group resolves, at its step, to a shot name that already
has a `Shot` entity under parent `sid`. -/
def CoveredShots (st : Store) (sid : Nat) : List ShotData → Nat → Prop
  | [], _ => True
  | sd :: rest, step =>
    (queryFirst st "Shot" (resolvedName (step + 1) sd) sid).isSome = true ∧
      CoveredShots st sid rest (step + 1)

/-- Every group's sequence name resolves (as the reconciler would resolve it:
`Sequence` first, then `Folder`) to an existing entity, and every row's shot
already exists under it. -/
def CoveredGroups (st : Store) (pid : Nat) : List (String × List ShotData) → Nat → Prop
  | [], _ => True
  | (sn, sds) :: gs, step =>
    (∃ e, (queryFirst st "Sequence" sn pid = some e ∨
            (queryFirst st "Sequence" sn pid = none ∧ queryFirst st "Folder" sn pid = some e)) ∧
          CoveredShots st e.id sds step) ∧
      CoveredGroups st pid gs (step + sds.length)

/-- Committed entities are append-only and the id counter is monotone. -/
def Grows (st st' : Store) : Prop :=
  st.nextId ≤ st'.nextId ∧ ∃ ext, st'.committed = st.committed ++ ext

/-- `Grows`, and additionally every conform-marker task appended since `st`
is parented at an id at least `b` (used with `b` the id bound of the store a
batch started from: no conform task lands under a pre-existing entity). -/
def GrowsFrom (b : Nat) (st st' : Store) : Prop :=
  st.nextId ≤ st'.nextId ∧ ∃ ext, st'.committed = st.committed ++ ext ∧
    ∀ e ∈ ext, e.etype = "Task" → e.description = FtrackConnection.conformDesc →
      ∀ p, e.parentId = some p → b ≤ p

/-- Number of mandatory conform tasks (name `conform`, carrying the marker
description written by `create_conform_task`) attached to the entity `sid`. -/
def conformCount (st : Store) (sid : Nat) : Nat :=
  st.committed.countP fun t =>
    t.etype == "Task" && t.name == "conform" &&
      t.description == FtrackConnection.conformDesc && t.parentId == some sid

/-! ## Concrete fixtures for witnesses and counterexamples -/

/-- Constantly-false string oracle. -/
def noOracle : String → Bool := fun _ => false

/-- A fully benign session: nothing raises, no file exists. -/
def benv : Env := benignEnv noOracle noOracle

/-- A session in which creating a shot named `B` is rejected by the store. -/
def failBEnv : Env := { benv with failShotCreate := fun n => n == "B" }

/-- Row `{"Sequence": "S", "Shot Name": n}` with no further keys. -/
def plainRow (n : String) : ShotData := ⟨some "S", some n, none, none, none, none⟩

/-! ## General lemmas about the loops -/

/-- The per-task loop never touches the shot, sequence or conform counters,
nor the error list (task failures are downgraded to warnings). -/
theorem processTasks_counters (env : Env) (dry : Bool) (sid : Nat) (sn status : String)
    (tts : List String) (st : Store) (r : BatchResult) :
    (processTasks env dry sid sn status tts st r).2.shotsCreated = r.shotsCreated ∧
    (processTasks env dry sid sn status tts st r).2.shotsExisted = r.shotsExisted ∧
    (processTasks env dry sid sn status tts st r).2.sequencesCreated = r.sequencesCreated ∧
    (processTasks env dry sid sn status tts st r).2.conformTasksCreated = r.conformTasksCreated ∧
    (processTasks env dry sid sn status tts st r).2.errors = r.errors := by
  induction tts generalizing st r with
  | nil => simp [processTasks]
  | cons tt rest ih =>
    simp only [processTasks]
    split
    · exact ih _ _
    · split
      · exact ih _ _
      · exact ih _ _

/-- Projection lemmas for `processTasks`. -/
theorem processTasks_shotsCreated (env : Env) (dry : Bool) (sid : Nat) (sn status : String)
    (tts : List String) (st : Store) (r : BatchResult) :
    (processTasks env dry sid sn status tts st r).2.shotsCreated = r.shotsCreated :=
  (processTasks_counters env dry sid sn status tts st r).1

theorem processTasks_shotsExisted (env : Env) (dry : Bool) (sid : Nat) (sn status : String)
    (tts : List String) (st : Store) (r : BatchResult) :
    (processTasks env dry sid sn status tts st r).2.shotsExisted = r.shotsExisted :=
  (processTasks_counters env dry sid sn status tts st r).2.1

theorem processTasks_sequencesCreated (env : Env) (dry : Bool) (sid : Nat) (sn status : String)
    (tts : List String) (st : Store) (r : BatchResult) :
    (processTasks env dry sid sn status tts st r).2.sequencesCreated = r.sequencesCreated :=
  (processTasks_counters env dry sid sn status tts st r).2.2.1

theorem processTasks_conformTasksCreated (env : Env) (dry : Bool) (sid : Nat) (sn status : String)
    (tts : List String) (st : Store) (r : BatchResult) :
    (processTasks env dry sid sn status tts st r).2.conformTasksCreated = r.conformTasksCreated :=
  (processTasks_counters env dry sid sn status tts st r).2.2.2.1

theorem processTasks_errors (env : Env) (dry : Bool) (sid : Nat) (sn status : String)
    (tts : List String) (st : Store) (r : BatchResult) :
    (processTasks env dry sid sn status tts st r).2.errors = r.errors :=
  (processTasks_counters env dry sid sn status tts st r).2.2.2.2

/-- The conform block leaves every field but `conformTasksCreated` (and the
store) unchanged, and adds at most one to it. -/
theorem conformStep_fields (env : Env) (dry : Bool) (shot : ShotRes) (st : Store)
    (r : BatchResult) :
    (conformStep env dry shot st r).2.shotsCreated = r.shotsCreated ∧
    (conformStep env dry shot st r).2.shotsExisted = r.shotsExisted ∧
    (conformStep env dry shot st r).2.sequencesCreated = r.sequencesCreated ∧
    (conformStep env dry shot st r).2.tasksCreated = r.tasksCreated ∧
    (conformStep env dry shot st r).2.errors = r.errors ∧
    (conformStep env dry shot st r).2.warnings = r.warnings ∧
    (conformStep env dry shot st r).2.conformTasksCreated ≤ r.conformTasksCreated + 1 := by
  unfold conformStep
  split
  · simp
  · split
    · simp
    · split <;> simp

theorem conformStep_shotsCreated (env : Env) (dry : Bool) (shot : ShotRes) (st : Store)
    (r : BatchResult) :
    (conformStep env dry shot st r).2.shotsCreated = r.shotsCreated :=
  (conformStep_fields env dry shot st r).1

theorem conformStep_shotsExisted (env : Env) (dry : Bool) (shot : ShotRes) (st : Store)
    (r : BatchResult) :
    (conformStep env dry shot st r).2.shotsExisted = r.shotsExisted :=
  (conformStep_fields env dry shot st r).2.1

theorem conformStep_sequencesCreated (env : Env) (dry : Bool) (shot : ShotRes) (st : Store)
    (r : BatchResult) :
    (conformStep env dry shot st r).2.sequencesCreated = r.sequencesCreated :=
  (conformStep_fields env dry shot st r).2.2.1

theorem conformStep_errors (env : Env) (dry : Bool) (shot : ShotRes) (st : Store)
    (r : BatchResult) :
    (conformStep env dry shot st r).2.errors = r.errors :=
  (conformStep_fields env dry shot st r).2.2.2.2.1

/-- The thumbnail block only ever touches `thumbnailsUploaded` and leaves
the store unchanged. -/
theorem thumbStep_fields (env : Env) (dry : Bool) (sid : Nat) (tp : Option String)
    (st : Store) (r : BatchResult) :
    (thumbStep env dry sid tp st r).1 = st ∧
    (thumbStep env dry sid tp st r).2.shotsCreated = r.shotsCreated ∧
    (thumbStep env dry sid tp st r).2.shotsExisted = r.shotsExisted ∧
    (thumbStep env dry sid tp st r).2.sequencesCreated = r.sequencesCreated ∧
    (thumbStep env dry sid tp st r).2.tasksCreated = r.tasksCreated ∧
    (thumbStep env dry sid tp st r).2.conformTasksCreated = r.conformTasksCreated ∧
    (thumbStep env dry sid tp st r).2.errors = r.errors ∧
    (thumbStep env dry sid tp st r).2.warnings = r.warnings := by
  unfold thumbStep
  split
  · simp
  · split
    · split
      · simp
      · split <;> simp
    · simp

theorem thumbStep_store (env : Env) (dry : Bool) (sid : Nat) (tp : Option String)
    (st : Store) (r : BatchResult) :
    (thumbStep env dry sid tp st r).1 = st :=
  (thumbStep_fields env dry sid tp st r).1

theorem thumbStep_shotsCreated (env : Env) (dry : Bool) (sid : Nat) (tp : Option String)
    (st : Store) (r : BatchResult) :
    (thumbStep env dry sid tp st r).2.shotsCreated = r.shotsCreated :=
  (thumbStep_fields env dry sid tp st r).2.1

theorem thumbStep_shotsExisted (env : Env) (dry : Bool) (sid : Nat) (tp : Option String)
    (st : Store) (r : BatchResult) :
    (thumbStep env dry sid tp st r).2.shotsExisted = r.shotsExisted :=
  (thumbStep_fields env dry sid tp st r).2.2.1

theorem thumbStep_sequencesCreated (env : Env) (dry : Bool) (sid : Nat) (tp : Option String)
    (st : Store) (r : BatchResult) :
    (thumbStep env dry sid tp st r).2.sequencesCreated = r.sequencesCreated :=
  (thumbStep_fields env dry sid tp st r).2.2.2.1

theorem thumbStep_tasksCreated (env : Env) (dry : Bool) (sid : Nat) (tp : Option String)
    (st : Store) (r : BatchResult) :
    (thumbStep env dry sid tp st r).2.tasksCreated = r.tasksCreated :=
  (thumbStep_fields env dry sid tp st r).2.2.2.2.1

theorem thumbStep_conformTasksCreated (env : Env) (dry : Bool) (sid : Nat) (tp : Option String)
    (st : Store) (r : BatchResult) :
    (thumbStep env dry sid tp st r).2.conformTasksCreated = r.conformTasksCreated :=
  (thumbStep_fields env dry sid tp st r).2.2.2.2.2.1

theorem thumbStep_errors (env : Env) (dry : Bool) (sid : Nat) (tp : Option String)
    (st : Store) (r : BatchResult) :
    (thumbStep env dry sid tp st r).2.errors = r.errors :=
  (thumbStep_fields env dry sid tp st r).2.2.2.2.2.2.1

/-- One shot adds at most one to `shots_created + shots_existed`. -/
theorem processShot_shots_bound (env : Env) (dry : Bool) (sid : Nat) (sn : String)
    (step : Nat) (sd : ShotData) (st : Store) (r : BatchResult) :
    (processShot env dry sid sn step sd st r).2.shotsCreated +
        (processShot env dry sid sn step sd st r).2.shotsExisted ≤
      r.shotsCreated + r.shotsExisted + 1 := by
  simp only [processShot]
  split
  · simp
  · simp only [thumbStep_shotsCreated, thumbStep_shotsExisted, processTasks_shotsCreated,
      processTasks_shotsExisted, conformStep_shotsCreated, conformStep_shotsExisted]
    split
    · simp
      omega
    · split <;> (simp; try omega)

/-- A group's shots add at most the group size to
`shots_created + shots_existed`. -/
theorem processShots_shots_bound (env : Env) (dry : Bool) (sid : Nat) (sn : String)
    (sds : List ShotData) (step : Nat) (st : Store) (r : BatchResult) :
    (processShots env dry sid sn sds step st r).2.1.shotsCreated +
        (processShots env dry sid sn sds step st r).2.1.shotsExisted ≤
      r.shotsCreated + r.shotsExisted + sds.length := by
  induction sds generalizing step st r with
  | nil => simp [processShots]
  | cons sd rest ih =>
    simp only [processShots]
    have h1 := processShot_shots_bound env dry sid sn (step + 1) sd st r
    have h2 := ih (step + 1) (processShot env dry sid sn (step + 1) sd st r).1
      (processShot env dry sid sn (step + 1) sd st r).2
    simp only [List.length_cons]
    omega

/-- The whole group loop adds at most the total number of rows to
`shots_created + shots_existed`, whatever the session does. -/
theorem processGroups_shots_bound (env : Env) (dry : Bool) (pid : Nat)
    (gs : List (String × List ShotData)) (step : Nat) (st : Store) (r : BatchResult) :
    (processGroups env dry pid gs step st r).2.1.shotsCreated +
        (processGroups env dry pid gs step st r).2.1.shotsExisted ≤
      r.shotsCreated + r.shotsExisted + totalShots gs := by
  induction gs generalizing step st r with
  | nil => simp [processGroups, totalShots]
  | cons g rest ih =>
    obtain ⟨sn, sds⟩ := g
    have htot : totalShots ((sn, sds) :: rest) = sds.length + totalShots rest := by
      simp [totalShots]
    rw [htot]
    simp only [processGroups]
    split
    · rename_i hdry
      subst hdry
      have h1 := processShots_shots_bound env true 0 sn sds step st
        { r with sequencesCreated := r.sequencesCreated + 1 }
      have h2 := ih (processShots env true 0 sn sds step st
          { r with sequencesCreated := r.sequencesCreated + 1 }).2.2
        (processShots env true 0 sn sds step st
          { r with sequencesCreated := r.sequencesCreated + 1 }).1
        (processShots env true 0 sn sds step st
          { r with sequencesCreated := r.sequencesCreated + 1 }).2.1
      simp only at h1
      omega
    · rename_i hdry
      rw [Bool.not_eq_true] at hdry
      subst hdry
      split
      · rename_i e heq
        have h2 := ih step st
          { r with errors := r.errors ++ ["Error creating sequence " ++ sn ++ ": " ++ e] }
        simp only at h2
        omega
      · rename_i seqE st1 heq
        have h1 := processShots_shots_bound env false seqE.id sn sds step st1
          { r with sequencesCreated := r.sequencesCreated + 1 }
        have h2 := ih (processShots env false seqE.id sn sds step st1
            { r with sequencesCreated := r.sequencesCreated + 1 }).2.2
          (processShots env false seqE.id sn sds step st1
            { r with sequencesCreated := r.sequencesCreated + 1 }).1
          (processShots env false seqE.id sn sds step st1
            { r with sequencesCreated := r.sequencesCreated + 1 }).2.1
        simp only at h1
        omega

/-- Inserting one row into the grouping map grows the total row count by
exactly one. -/
theorem totalShots_insertGroup (acc : List (String × List ShotData)) (k : String)
    (sd : ShotData) : totalShots (insertGroup acc k sd) = totalShots acc + 1 := by
  induction acc with
  | nil => simp [insertGroup, totalShots]
  | cons g rest ih =>
    obtain ⟨k', l⟩ := g
    simp only [insertGroup]
    split
    · simp [totalShots]
      omega
    · simp [totalShots] at ih ⊢
      omega

/-- Grouping preserves the total number of rows. -/
theorem totalShots_groupBySequence (records : List ShotData)
    (acc : List (String × List ShotData)) :
    totalShots (groupBySequence records acc) = totalShots acc + records.length := by
  induction records generalizing acc with
  | nil => simp [groupBySequence]
  | cons sd rest ih =>
    simp only [groupBySequence, List.length_cons]
    rw [ih, totalShots_insertGroup]
    omega

/-- The batch body adds at most `records.length` to the two shot
counters. -/
theorem runBatchBody_shots_bound (env : Env) (st : Store) (pid : Nat)
    (records : List ShotData) (dry : Bool) (r : BatchResult) :
    (runBatchBody env st pid records dry r).1.shotsCreated +
        (runBatchBody env st pid records dry r).1.shotsExisted ≤
      r.shotsCreated + r.shotsExisted + records.length := by
  have h1 := processGroups_shots_bound env dry pid (groupBySequence records []) 0 st r
  have h2 := totalShots_groupBySequence records []
  have h0 : totalShots ([] : List (String × List ShotData)) = 0 := by simp [totalShots]
  rw [h0] at h2
  simp only [runBatchBody]
  split
  · simp only
    omega
  · omega

/-! ## C10 — shot-counter bound -/

/-- C10: for every call to `create_shots_from_table`, the returned result
satisfies `shots_created + shots_existed ≤ shots_data.length` — each input
row increments at most one of the two shot counters, at most once, on every
path (dry run, validation failure, group-level skip, per-shot exception). -/
theorem C10_shot_counter_bound (env : Env) (st : Store) (pid : Nat)
    (records : List ShotData) (dryRun validateProject : Bool) :
    (create_shots_from_table env st pid records dryRun validateProject).1.shotsCreated +
        (create_shots_from_table env st pid records dryRun validateProject).1.shotsExisted ≤
      records.length := by
  simp only [create_shots_from_table]
  split
  · split
    · simp [initResult]
    · split
      · simp [initResult]
      · rename_i project heq
        refine le_trans (runBatchBody_shots_bound env st pid records dryRun
          { initResult dryRun with projectName := some project.name }) ?_
        simp [initResult]
  · refine le_trans (runBatchBody_shots_bound env st pid records dryRun
      (initResult dryRun)) ?_
    simp [initResult]

/-! ## C5 — connection-level failure atomicity -/

/-- C5: when the batch call cannot validate the target project (project not
found, or the validation lookup raises), `create_shots_from_table` returns
immediately with `success = false`, exactly one top-level error, and every
counter equal to zero (the unchanged `initResult` fields); the store is
untouched, so no per-shot operation was attempted. -/
theorem C5_validation_failure (env : Env) (st : Store) (pid : Nat)
    (records : List ShotData) (dryRun : Bool)
    (h : env.failProjectGet = true ∨ getById st "Project" pid = none) :
    ∃ msg, create_shots_from_table env st pid records dryRun true =
      ({ initResult dryRun with success := false, errors := [msg] }, st) := by
  by_cases hf : env.failProjectGet = true
  · exact ⟨"Error validating project: store exception",
      by simp [create_shots_from_table, hf]⟩
  · have hg : getById st "Project" pid = none := h.resolve_left hf
    have hfalse : env.failProjectGet = false := by
      rwa [Bool.not_eq_true] at hf
    exact ⟨"Project not found: " ++ toString pid,
      by simp [create_shots_from_table, hfalse, hg]⟩

/-- Witness for C5 at a concrete input: id 9 names no project in
`projectStore 7`. -/
theorem C5_validation_failure_witness :
    ∃ msg, create_shots_from_table benv (projectStore 7) 9 [plainRow "A"] false true =
      ({ initResult false with success := false, errors := [msg] }, projectStore 7) :=
  C5_validation_failure benv (projectStore 7) 9 [plainRow "A"] false (Or.inr (by decide))




/-! ## C8 — status resolver negative caching -/

/-- C8: when resolving a canonical status name finds no `Status` entity whose
normalized name matches, `_discover_status_name` caches `None` under the
normalized key and returns `None`; any later resolution of the same (or an
equivalently normalized) name against the updated cache returns `None`
without issuing any further store query. -/
theorem C8_negative_caching (statuses : List String)
    (cache : List (String × Option String)) (canonical name2 : String)
    (hmiss : FtrackManager.lookupCache cache (normalize_status_name canonical) = none)
    (hnomatch : ∀ s ∈ statuses,
      normalize_status_name s ≠ normalize_status_name canonical)
    (heq : normalize_status_name name2 = normalize_status_name canonical) :
    FtrackManager._discover_status_name false statuses cache canonical =
      (none, cache ++ [(normalize_status_name canonical, none)], 1) ∧
    FtrackManager._discover_status_name false statuses
        (cache ++ [(normalize_status_name canonical, none)]) name2 =
      (none, cache ++ [(normalize_status_name canonical, none)], 0) := by
  have hfindc : cache.find? (fun p => p.1 == normalize_status_name canonical) = none := by
    unfold FtrackManager.lookupCache at hmiss
    exact Option.map_eq_none'.mp hmiss
  have hfind : statuses.find?
      (fun n => normalize_status_name n == normalize_status_name canonical) = none := by
    rw [List.find?_eq_none]
    intro s hs
    simpa using hnomatch s hs
  constructor
  · simp [FtrackManager._discover_status_name, hmiss, hfind]
  · have happ : FtrackManager.lookupCache
        (cache ++ [(normalize_status_name canonical, none)])
        (normalize_status_name name2) = some none := by
      unfold FtrackManager.lookupCache
      rw [heq, List.find?_append, hfindc]
      simp
    simp [FtrackManager._discover_status_name, happ]

/-- Witness for C8: server statuses `["Not Started"]` do not contain any
spelling of `pending_review`; the second lookup uses a differently spelled
name with the same normal form. -/
theorem C8_negative_caching_witness :
    FtrackManager._discover_status_name false ["Not Started"] [] "pending_review" =
      (none, [] ++ [(normalize_status_name "pending_review", none)], 1) ∧
    FtrackManager._discover_status_name false ["Not Started"]
        ([] ++ [(normalize_status_name "pending_review", none)]) "Pending Review" =
      (none, [] ++ [(normalize_status_name "pending_review", none)], 0) :=
  C8_negative_caching ["Not Started"] [] "pending_review" "Pending Review"
    (by decide) (by decide) (by decide)

/-! ## C9 — reconciler rollback behaviour -/

/-- C9 counterexample: `FtrackManager.create_shot` at a concrete input where
the store rejects the create: the creation path is taken (the shot does not
exist and the oracle raises), the function rolls back, yet its result is a
normal `Except.ok none` — no exception is re-raised to the caller, so the
claim "the reconciler performs a rollback and re-raises the exception" is
false of this reconciler. -/
theorem C9_counterexample :
    queryFirst (projectStore 7) "Shot" "B" 8 = none ∧
    failBEnv.failShotCreate "B" = true ∧
    FtrackManager.create_shot failBEnv (projectStore 7) 8 "B" "" =
      (Except.ok none, ⟨(projectStore 7).committed, [], 9⟩) ∧
    ¬ ∃ msg, (FtrackManager.create_shot failBEnv (projectStore 7) 8 "B" "").1 =
      Except.error msg := by
  refine ⟨by decide, by decide, by rfl, ?_⟩
  rintro ⟨msg, h⟩
  have h0 : (FtrackManager.create_shot failBEnv (projectStore 7) 8 "B" "").1 =
      Except.ok none := by rfl
  rw [h0] at h
  exact Except.noConfusion h

/-- C9 amended: whenever entity creation inside `FtrackManager.create_shot`
raises a store exception, the reconciler performs a rollback (the pending
create is discarded and the committed state is untouched) and returns `None`
— the exception is swallowed, not re-raised; the caller sees an ordinary
empty result.  (In the wrapper, `get_or_create_sequence` re-raises only
after its Folder fallback also fails, and `_create_shot_entity` propagates
without a reconciler-level rollback.) -/
theorem C9_amended_rollback_swallow (env : Env) (st : Store) (parentId : Nat)
    (name desc : String)
    (hq : queryFirst st "Shot" name parentId = none)
    (hf : env.failShotCreate name = true) :
    FtrackManager.create_shot env st parentId name desc =
      (Except.ok none,
        rollbackS (sessionCreate st "Shot" name (some parentId) desc).2) ∧
    (rollbackS (sessionCreate st "Shot" name (some parentId) desc).2).committed =
      st.committed ∧
    (rollbackS (sessionCreate st "Shot" name (some parentId) desc).2).pending = [] := by
  refine ⟨?_, rfl, rfl⟩
  simp [FtrackManager.create_shot, hq, hf]

/-- Witness for the amended C9 at a concrete input. -/
theorem C9_amended_rollback_swallow_witness :
    FtrackManager.create_shot failBEnv (projectStore 7) 8 "B" "" =
      (Except.ok none,
        rollbackS (sessionCreate (projectStore 7) "Shot" "B" (some 8) "").2) ∧
    (rollbackS (sessionCreate (projectStore 7) "Shot" "B" (some 8) "").2).committed =
      (projectStore 7).committed ∧
    (rollbackS (sessionCreate (projectStore 7) "Shot" "B" (some 8) "").2).pending = [] :=
  C9_amended_rollback_swallow failBEnv (projectStore 7) 8 "B" "" (by decide) (by decide)

end FlameFtrack

namespace FlameFtrack

/-! ## C6 and C7 — counterexamples -/

/-- C6 counterexample: the row `{"Sequence": "S", "Shot Name": ""}` is not
skipped by `create_shots_from_table` — against an empty store it creates and
counts a shot named `""` (together with its sequence and conform task), so an
empty-named record does contribute to the counters. -/
theorem C6_counterexample :
    (create_shots_from_table benv (projectStore 7) 7 [plainRow ""] false true).1.shotsCreated
        = 1 ∧
    (create_shots_from_table benv (projectStore 7) 7 [plainRow ""] false true).1.sequencesCreated
        = 1 ∧
    (create_shots_from_table benv (projectStore 7) 7 [plainRow ""] false true).1.conformTasksCreated
        = 1 ∧
    (create_shots_from_table benv (projectStore 7) 7 [plainRow ""] false true).1.errors
        = [] := by
  decide

/-- C7 counterexample: a row with no `Task Types` key yields zero user tasks
(`task_types` defaults to `[]`, not `["Compositing"]`), even though its shot
is created normally. -/
theorem C7_counterexample :
    (create_shots_from_table benv (projectStore 7) 7 [plainRow "X"] false true).1.tasksCreated
        = 0 ∧
    (create_shots_from_table benv (projectStore 7) 7 [plainRow "X"] false true).1.shotsCreated
        = 1 := by
  decide

end FlameFtrack

namespace FlameFtrack

/-! ## Lemmas about the store operations -/

theorem find?_append_none {α} (p : α → Bool) (l₁ l₂ : List α)
    (h : l₁.find? p = none) : (l₁ ++ l₂).find? p = l₂.find? p := by
  rw [List.find?_append, h, Option.none_or]

theorem find?_append_some {α} (p : α → Bool) (l₁ l₂ : List α) (a : α)
    (h : l₁.find? p = some a) : (l₁ ++ l₂).find? p = some a := by
  rw [List.find?_append, h]
  rfl

/-- Shot/sequence queries under a parent id at or above the fresh-id counter
come back empty when every committed parent reference lies below the
counter. -/
theorem queryFirst_none_of_fresh_parent (st : Store) (t n : String) (p : Nat)
    (hwf : ∀ e ∈ st.committed, ∀ q, e.parentId = some q → q < st.nextId)
    (hp : st.nextId ≤ p) : queryFirst st t n p = none := by
  rw [queryFirst, List.find?_eq_none]
  intro e he
  simp only [Bool.and_eq_true, beq_iff_eq, not_and]
  intro _ hpar
  exact absurd (hwf e he p hpar) (by omega)

/-- A sequence that neither exists as a `Sequence` nor as a `Folder` is
created and committed under the project. -/
theorem get_or_create_sequence_fresh (env : Env) (st : Store) (pid : Nat) (sn : String)
    (h1 : queryFirst st "Sequence" sn pid = none)
    (h2 : queryFirst st "Folder" sn pid = none)
    (hf : env.failSeqCreate sn = false) (hp : st.pending = []) :
    FtrackConnection.get_or_create_sequence env st pid sn =
      .ok (⟨st.nextId, "Sequence", sn, some pid, ""⟩,
        ⟨st.committed ++ [⟨st.nextId, "Sequence", sn, some pid, ""⟩], [], st.nextId + 1⟩) := by
  simp [FtrackConnection.get_or_create_sequence, h1, h2, hf, createCommit,
    sessionCreate, commitS, hp]

/-- An existing sequence is returned as is. -/
theorem get_or_create_sequence_found (env : Env) (st : Store) (pid : Nat) (sn : String)
    (e : Entity) (h1 : queryFirst st "Sequence" sn pid = some e) :
    FtrackConnection.get_or_create_sequence env st pid sn = .ok (e, st) := by
  simp [FtrackConnection.get_or_create_sequence, h1]

/-- An existing folder is returned as is when no sequence matches. -/
theorem get_or_create_sequence_found_folder (env : Env) (st : Store) (pid : Nat)
    (sn : String) (e : Entity) (h1 : queryFirst st "Sequence" sn pid = none)
    (h2 : queryFirst st "Folder" sn pid = some e) :
    FtrackConnection.get_or_create_sequence env st pid sn = .ok (e, st) := by
  simp [FtrackConnection.get_or_create_sequence, h1, h2]

/-- A shot that does not yet exist is created and committed. -/
theorem _create_shot_entity_fresh (env : Env) (st : Store) (sid : Nat) (n d : String)
    (hq : queryFirst st "Shot" n sid = none)
    (hf : env.failShotCreate n = false) (hp : st.pending = []) :
    FtrackConnection._create_shot_entity env st sid n d =
      .ok (⟨st.nextId, n, false⟩,
        ⟨st.committed ++ [⟨st.nextId, "Shot", n, some sid, d⟩], [], st.nextId + 1⟩) := by
  simp [FtrackConnection._create_shot_entity, hq, hf, createCommit, sessionCreate,
    commitS, hp]

/-- An existing shot is returned with `existed = True` and the store — in
particular every field of the existing entity — untouched. -/
theorem _create_shot_entity_existing (env : Env) (st : Store) (sid : Nat) (n d : String)
    (e : Entity) (hq : queryFirst st "Shot" n sid = some e) :
    FtrackConnection._create_shot_entity env st sid n d = .ok (⟨e.id, e.name, true⟩, st) := by
  simp [FtrackConnection._create_shot_entity, hq]

/-- A rejected shot create propagates as an exception. -/
theorem _create_shot_entity_failing (env : Env) (st : Store) (sid : Nat) (n d : String)
    (hq : queryFirst st "Shot" n sid = none) (hf : env.failShotCreate n = true) :
    FtrackConnection._create_shot_entity env st sid n d =
      .error ("server rejected shot " ++ n) := by
  simp [FtrackConnection._create_shot_entity, hq, hf]

/-- When its parent resolves and the session does not raise, the conform task
is created, committed and reported. -/
theorem create_conform_task_benign (env : Env) (st : Store) (sid : Nat)
    (hg : (getTyped st sid).isSome = true)
    (hfc : env.failConformCreate sid = false) (hp : st.pending = []) :
    FtrackConnection.create_conform_task env st sid =
      some ((st.nextId, "conform"),
        ⟨st.committed ++
            [⟨st.nextId, "Task", "conform", some sid, FtrackConnection.conformDesc⟩],
          [], st.nextId + 1⟩) := by
  obtain ⟨e, he⟩ := Option.isSome_iff_exists.mp hg
  simp [FtrackConnection.create_conform_task, he, hfc, createCommit, sessionCreate,
    commitS, hp]

/-- A benign task create commits one `Task` entity with empty description. -/
theorem create_task_ok (env : Env) (st : Store) (sid : Nat) (tt status nm desc' : String)
    (hft : env.failTaskCreate nm = false) (hp : st.pending = []) :
    FtrackConnection.create_task env st sid tt status (some nm) desc' =
      .ok ((st.nextId, nm),
        ⟨st.committed ++ [⟨st.nextId, "Task", nm, some sid, desc'⟩], [], st.nextId + 1⟩) := by
  simp [FtrackConnection.create_task, hft, hp, createCommit, sessionCreate, commitS]

/-- `getTyped` finds a freshly appended non-project entity by its id. -/
theorem getTyped_append_self (c pend : List Entity) (k : Nat) (e : Entity)
    (he : e.etype ≠ "Project") :
    (getTyped ⟨c ++ [e], pend, k⟩ e.id).isSome = true := by
  rw [getTyped]
  cases h : c.find? fun a => a.etype != "Project" && a.id == e.id with
  | some a => simp [find?_append_some _ _ _ _ h]
  | none =>
    rw [find?_append_none _ _ _ h]
    have hb : (e.etype != "Project") = true := by simpa [bne_iff_ne] using he
    simp [List.find?, hb]

end FlameFtrack

namespace FlameFtrack

/-- A benign per-task loop creates one committed `Task` per requested type
(empty description, parented at the shot) and counts each one. -/
theorem processTasks_benign (env : Env) (hft : ∀ n, env.failTaskCreate n = false)
    (sid : Nat) (sn status : String) (tts : List String) (st : Store) (r : BatchResult)
    (hp : st.pending = []) :
    ∃ ext, processTasks env false sid sn status tts st r =
        (⟨st.committed ++ ext, [], st.nextId + ext.length⟩,
          { r with tasksCreated := r.tasksCreated + tts.length }) ∧
      ∀ e ∈ ext, e.etype = "Task" ∧ e.parentId = some sid ∧ e.description = "" ∧
        st.nextId ≤ e.id ∧ e.id < st.nextId + ext.length := by
  induction tts generalizing st r with
  | nil =>
    refine ⟨[], ?_, by simp⟩
    obtain ⟨c, pend, k⟩ := st
    simp only at hp
    subst hp
    simp [processTasks]
  | cons tt rest ih =>
    simp only [processTasks]
    rw [if_neg (by decide)]
    rw [create_task_ok env st sid tt status (toTaskName tt) "" (hft _) hp]
    simp only []
    obtain ⟨ext, heq, hext⟩ := ih
      ⟨st.committed ++ [⟨st.nextId, "Task", toTaskName tt, some sid, ""⟩], [], st.nextId + 1⟩
      { r with tasksCreated := r.tasksCreated + 1 } rfl
    refine ⟨⟨st.nextId, "Task", toTaskName tt, some sid, ""⟩ :: ext, ?_, ?_⟩
    · rw [heq]
      simp only [Prod.mk.injEq, Store.mk.injEq, BatchResult.mk.injEq, List.append_assoc,
        List.singleton_append, List.length_cons, and_true, true_and]
      omega
    · intro e he
      simp only [List.length_cons]
      rcases List.mem_cons.mp he with rfl | he2
      · exact ⟨rfl, rfl, rfl, le_refl _, by simp only []; omega⟩
      · obtain ⟨h1, h2, h3, h4, h5⟩ := hext e he2
        simp only at h4 h5
        exact ⟨h1, h2, h3, by omega, by omega⟩

end FlameFtrack

namespace FlameFtrack

theorem conformStep_existed (env : Env) (dry : Bool) (shot : ShotRes) (st : Store)
    (r : BatchResult) (hex : shot.existed = true) :
    conformStep env dry shot st r = (st, r) := by
  simp [conformStep, hex]

theorem conformStep_created (env : Env) (shot : ShotRes) (st st2 : Store)
    (r : BatchResult) (pr : Nat × String) (hex : shot.existed = false)
    (hsome : FtrackConnection.create_conform_task env st shot.id = some (pr, st2)) :
    conformStep env false shot st r =
      (st2, { r with conformTasksCreated := r.conformTasksCreated + 1 }) := by
  simp [conformStep, hex, hsome]

/-- The thumbnail block: the store is unchanged and `thumbnailsUploaded`
grows by zero or one. -/
theorem thumbStep_eq (env : Env) (dry : Bool) (sid : Nat) (tp : Option String)
    (st : Store) (r : BatchResult) :
    ∃ tn, tn ≤ 1 ∧ thumbStep env dry sid tp st r =
      (st, { r with thumbnailsUploaded := r.thumbnailsUploaded + tn }) := by
  unfold thumbStep
  split
  · exact ⟨0, by omega, by simp⟩
  · split
    · split
      · exact ⟨1, le_refl _, rfl⟩
      · split
        · exact ⟨1, le_refl _, rfl⟩
        · exact ⟨0, by omega, by simp⟩
    · exact ⟨0, by omega, by simp⟩

/-- A failing shot reconciliation leaves the store untouched and records
exactly one error for this row. -/
theorem processShot_failing (env : Env) (sid : Nat) (sn : String) (step : Nat)
    (sd : ShotData) (st : Store) (r : BatchResult)
    (hq : queryFirst st "Shot" (resolvedName step sd) sid = none)
    (hf : env.failShotCreate (resolvedName step sd) = true) :
    processShot env false sid sn step sd st r =
      (st, { r with errors := r.errors ++
        ["Error creating shot " ++ resolvedName step sd ++ ": " ++
          ("server rejected shot " ++ resolvedName step sd)] }) := by
  simp only [processShot]
  rw [if_neg (by decide), _create_shot_entity_failing env st sid _ _ hq hf]

/-- A fresh, non-failing row: the shot is created and counted, the conform
task is created and counted, one task per requested type is created and
counted, and at most one thumbnail is counted; everything appended beyond
the shot is a task parented at the new shot id. -/
theorem processShot_fresh (env : Env) (sid : Nat) (sn : String) (step : Nat)
    (sd : ShotData) (st : Store) (r : BatchResult)
    (hq : queryFirst st "Shot" (resolvedName step sd) sid = none)
    (hf : env.failShotCreate (resolvedName step sd) = false)
    (hft : ∀ n, env.failTaskCreate n = false)
    (hfc : ∀ i, env.failConformCreate i = false)
    (hp : st.pending = []) :
    ∃ ext tn, tn ≤ 1 ∧
      processShot env false sid sn step sd st r =
        (⟨st.committed ++
            ⟨st.nextId, "Shot", resolvedName step sd, some sid, sd.description.getD ""⟩ :: ext,
          [], st.nextId + (ext.length + 1)⟩,
         { r with shotsCreated := r.shotsCreated + 1,
                  tasksCreated := r.tasksCreated + (parseTaskTypes sd.taskTypes).length,
                  conformTasksCreated := r.conformTasksCreated + 1,
                  thumbnailsUploaded := r.thumbnailsUploaded + tn }) ∧
      ∀ e ∈ ext, e.etype = "Task" ∧ e.parentId = some st.nextId ∧
        st.nextId < e.id ∧ e.id < st.nextId + (ext.length + 1) := by
  simp only [processShot]
  rw [if_neg (by decide), _create_shot_entity_fresh env st sid _ _ hq hf hp]
  simp only []
  have hconf := create_conform_task_benign env
    ⟨st.committed ++
        [⟨st.nextId, "Shot", resolvedName step sd, some sid, sd.description.getD ""⟩],
      [], st.nextId + 1⟩
    st.nextId
    (getTyped_append_self st.committed [] (st.nextId + 1)
      ⟨st.nextId, "Shot", resolvedName step sd, some sid, sd.description.getD ""⟩
      (by simp))
    (hfc st.nextId) rfl
  rw [conformStep_created env ⟨st.nextId, resolvedName step sd, false⟩ _ _ _ _ rfl hconf]
  simp only [Bool.false_eq_true, if_false]
  obtain ⟨ext0, hTasks, hext0⟩ := processTasks_benign env hft st.nextId
    (resolvedName step sd) (sd.status.getD "not_started")
    (parseTaskTypes sd.taskTypes)
    ⟨(st.committed ++
        [⟨st.nextId, "Shot", resolvedName step sd, some sid, sd.description.getD ""⟩]) ++
        [⟨st.nextId + 1, "Task", "conform", some st.nextId,
          FtrackConnection.conformDesc⟩],
      [], st.nextId + 1 + 1⟩
    { { r with shotsCreated := r.shotsCreated + 1 } with
        conformTasksCreated := r.conformTasksCreated + 1 } rfl
  rw [hTasks]
  obtain ⟨tn, htn, hThumb⟩ := thumbStep_eq env false st.nextId sd.thumbnailPath
    ⟨((st.committed ++
        [⟨st.nextId, "Shot", resolvedName step sd, some sid, sd.description.getD ""⟩]) ++
        [⟨st.nextId + 1, "Task", "conform", some st.nextId,
          FtrackConnection.conformDesc⟩]) ++ ext0,
      [], st.nextId + 1 + 1 + ext0.length⟩
    { { { r with shotsCreated := r.shotsCreated + 1 } with
        conformTasksCreated := r.conformTasksCreated + 1 } with
        tasksCreated := r.tasksCreated + (parseTaskTypes sd.taskTypes).length }
  rw [hThumb]
  refine ⟨⟨st.nextId + 1, "Task", "conform", some st.nextId,
      FtrackConnection.conformDesc⟩ :: ext0, tn, htn, ?_, ?_⟩
  · simp only [Prod.mk.injEq, Store.mk.injEq, BatchResult.mk.injEq, List.append_assoc,
      List.singleton_append, List.cons_append, List.nil_append, List.length_cons,
      and_true, true_and]
    omega
  · intro e he
    simp only [List.length_cons]
    rcases List.mem_cons.mp he with rfl | he2
    · exact ⟨rfl, rfl, by simp only []; omega, by simp only []; omega⟩
    · obtain ⟨h1, h2, h3, h4, h5⟩ := hext0 e he2
      simp only at h4 h5
      exact ⟨h1, h2, by omega, by omega⟩

end FlameFtrack

namespace FlameFtrack

/-- A row whose shot already exists: the existing entity is reused untouched,
`shots_existed` is counted with a warning, no conform task is attempted, and
only user tasks (empty description, parented at the existing shot) are
appended. -/
theorem processShot_existing (env : Env) (sid : Nat) (sn : String) (step : Nat)
    (sd : ShotData) (st : Store) (r : BatchResult) (e : Entity)
    (hq : queryFirst st "Shot" (resolvedName step sd) sid = some e)
    (hft : ∀ n, env.failTaskCreate n = false)
    (hp : st.pending = []) :
    ∃ ext tn, tn ≤ 1 ∧
      processShot env false sid sn step sd st r =
        (⟨st.committed ++ ext, [], st.nextId + ext.length⟩,
         { r with shotsExisted := r.shotsExisted + 1,
                  tasksCreated := r.tasksCreated + (parseTaskTypes sd.taskTypes).length,
                  thumbnailsUploaded := r.thumbnailsUploaded + tn,
                  warnings := r.warnings ++
                    ["Shot already existed: " ++ sn ++ "/" ++ resolvedName step sd] }) ∧
      ∀ e2 ∈ ext, e2.etype = "Task" ∧ e2.parentId = some e.id ∧ e2.description = "" ∧
        st.nextId ≤ e2.id := by
  simp only [processShot]
  rw [if_neg (by decide), _create_shot_entity_existing env st sid _ _ e hq]
  simp only [Bool.false_eq_true, if_false, eq_self_iff_true, if_true]
  rw [conformStep_existed env false ⟨e.id, e.name, true⟩ st _ rfl]
  obtain ⟨ext0, hTasks, hext0⟩ := processTasks_benign env hft e.id
    (resolvedName step sd) (sd.status.getD "not_started")
    (parseTaskTypes sd.taskTypes) st
    { r with shotsExisted := r.shotsExisted + 1,
             warnings := r.warnings ++
               ["Shot already existed: " ++ sn ++ "/" ++ resolvedName step sd] } hp
  rw [hTasks]
  obtain ⟨tn, htn, hThumb⟩ := thumbStep_eq env false e.id sd.thumbnailPath
    ⟨st.committed ++ ext0, [], st.nextId + ext0.length⟩
    { { r with shotsExisted := r.shotsExisted + 1,
               warnings := r.warnings ++
                 ["Shot already existed: " ++ sn ++ "/" ++ resolvedName step sd] } with
        tasksCreated := r.tasksCreated + (parseTaskTypes sd.taskTypes).length }
  rw [hThumb]
  refine ⟨ext0, tn, htn, ?_, ?_⟩
  · simp only [Prod.mk.injEq, Store.mk.injEq, BatchResult.mk.injEq, and_true, true_and]
  · intro e2 he2
    obtain ⟨h1, h2, h3, h4, h5⟩ := hext0 e2 he2
    exact ⟨h1, h2, h3, h4⟩

end FlameFtrack

namespace FlameFtrack

/-- An empty query result survives appending entities that do not match it. -/
theorem queryFirst_extend_none (st : Store) (ext pend : List Entity) (k : Nat)
    (t n : String) (p : Nat) (h : queryFirst st t n p = none)
    (hext : ∀ e ∈ ext, ¬(e.etype = t ∧ e.name = n ∧ e.parentId = some p)) :
    queryFirst ⟨st.committed ++ ext, pend, k⟩ t n p = none := by
  rw [queryFirst] at h ⊢
  rw [find?_append_none _ _ _ h, List.find?_eq_none]
  intro e he
  simpa using hext e he

/-- A successful query result survives appending entities. -/
theorem queryFirst_extend_some (st : Store) (ext pend : List Entity) (k : Nat)
    (t n : String) (p : Nat) (e : Entity) (h : queryFirst st t n p = some e) :
    queryFirst ⟨st.committed ++ ext, pend, k⟩ t n p = some e := by
  rw [queryFirst] at h ⊢
  exact find?_append_some _ _ _ _ h

/-- A query hits the first appended entity when nothing before it matches. -/
theorem queryFirst_hit (c rest pend : List Entity) (k : Nat) (e : Entity)
    (t n : String) (p : Nat)
    (h1 : List.find? (fun a => a.etype == t && a.name == n && a.parentId == some p) c
      = none)
    (he : e.etype = t ∧ e.name = n ∧ e.parentId = some p) :
    queryFirst ⟨c ++ e :: rest, pend, k⟩ t n p = some e := by
  rw [queryFirst]
  rw [find?_append_none _ _ _ h1]
  simp [List.find?, he.1, he.2.1, he.2.2]

/-- Master lemma for a fresh group: with benign tasks/conform and a store in
which no row's resolved shot name exists yet under `sid`, the loop creates
and counts one shot and one conform task per row the shot-failure oracle
lets through, one task per requested type of those rows, and records one
error per rejected row; everything appended is a shot under `sid` or a task,
with fresh ids and in-range parents. -/
theorem processShots_fresh (env : Env) (sid : Nat) (sn : String)
    (sds : List ShotData) (step : Nat) (st : Store) (r : BatchResult)
    (hft : ∀ n, env.failTaskCreate n = false)
    (hfc : ∀ i, env.failConformCreate i = false)
    (hfresh : ∀ n ∈ resolvedShots sds step, queryFirst st "Shot" n sid = none)
    (hnd : (resolvedShots sds step).Nodup)
    (hp : st.pending = [])
    (hwf : ∀ e ∈ st.committed, ∀ q, e.parentId = some q → q < st.nextId)
    (hsid : sid < st.nextId) :
    ∃ ext tn msgs,
      processShots env false sid sn sds step st r =
        (⟨st.committed ++ ext, [], st.nextId + ext.length⟩,
         { r with
             shotsCreated := r.shotsCreated +
               (resolvedShots sds step).countP (fun n => !env.failShotCreate n),
             tasksCreated := r.tasksCreated + taskTotal env.failShotCreate sds step,
             conformTasksCreated := r.conformTasksCreated +
               (resolvedShots sds step).countP (fun n => !env.failShotCreate n),
             thumbnailsUploaded := r.thumbnailsUploaded + tn,
             errors := r.errors ++ msgs },
         step + sds.length) ∧
      msgs.length = (resolvedShots sds step).countP env.failShotCreate ∧
      (∀ e ∈ ext, ((e.etype = "Shot" ∧ e.parentId = some sid) ∨ e.etype = "Task") ∧
        st.nextId ≤ e.id ∧ e.id < st.nextId + ext.length ∧
        (∀ q, e.parentId = some q → q < st.nextId + ext.length)) ∧
      ((∀ n, env.failShotCreate n = false) →
        CoveredShots ⟨st.committed ++ ext, [], st.nextId + ext.length⟩ sid sds step) := by
  induction sds generalizing step st r with
  | nil =>
    refine ⟨[], 0, [], ?_, rfl, by simp, ?_⟩
    · obtain ⟨c, pend, k⟩ := st
      simp only at hp
      subst hp
      simp [processShots, resolvedShots, taskTotal]
    · intro _
      simp [CoveredShots]
  | cons sd rest ih =>
    simp only [processShots]
    by_cases hfail : env.failShotCreate (resolvedName (step + 1) sd) = true
    · rw [processShot_failing env sid sn (step + 1) sd st r
        (hfresh _ (by simp [resolvedShots])) hfail]
      obtain ⟨ext, tn, msgs, heq, hlen, hext, hcov⟩ := ih (step + 1) st
        { r with errors := r.errors ++
            ["Error creating shot " ++ resolvedName (step + 1) sd ++ ": " ++
              ("server rejected shot " ++ resolvedName (step + 1) sd)] }
        (fun n hn => hfresh n
          (by simp only [resolvedShots, List.mem_cons]; right; exact hn))
        (by have h := hnd; simp only [resolvedShots, List.nodup_cons] at h; exact h.2)
        hp hwf hsid
      refine ⟨ext,  tn,
        ("Error creating shot " ++ resolvedName (step + 1) sd ++ ": " ++
          ("server rejected shot " ++ resolvedName (step + 1) sd)) :: msgs, ?_, ?_, hext, ?_⟩
      · rw [heq]
        simp only [Prod.mk.injEq, Store.mk.injEq, BatchResult.mk.injEq, and_true, true_and,
          resolvedShots, List.countP_cons, taskTotal, hfail, List.length_cons,
          List.append_assoc, List.singleton_append, List.cons_append, List.nil_append,
          eq_self_iff_true, if_true, if_false, Bool.not_true, Bool.false_eq_true,
          and_self]
        omega
      · simp [resolvedShots, List.countP_cons, hfail, hlen]
      · intro hb
        have hcontra := hb (resolvedName (step + 1) sd)
        rw [hfail] at hcontra
        simp at hcontra
    · rw [Bool.not_eq_true] at hfail
      obtain ⟨ext1, tn1, htn1, heq1, hext1⟩ := processShot_fresh env sid sn (step + 1) sd st r
        (hfresh _ (by simp [resolvedShots])) hfail hft hfc hp
      rw [heq1]
      have hfresh2 : ∀ n ∈ resolvedShots rest (step + 1),
          queryFirst
            ⟨st.committed ++
                ⟨st.nextId, "Shot", resolvedName (step + 1) sd, some sid,
                  sd.description.getD ""⟩ :: ext1,
              [], st.nextId + (ext1.length + 1)⟩ "Shot" n sid = none := by
        intro n hn
        refine queryFirst_extend_none st _ [] _ "Shot" n sid
          (hfresh n (by simp only [resolvedShots, List.mem_cons]; right; exact hn)) ?_
        intro e he
        rcases List.mem_cons.mp he with rfl | he1
        · rintro ⟨-, hnm, -⟩
          have hne : resolvedName (step + 1) sd ∉ resolvedShots rest (step + 1) := by
            have h := hnd
            simp only [resolvedShots, List.nodup_cons] at h
            exact h.1
          apply hne
          have hcast : resolvedName (step + 1) sd = n := hnm
          rw [hcast]
          exact hn
        · obtain ⟨h1, h2, h3, h4⟩ := hext1 e he1
          rintro ⟨ht, -, -⟩
          rw [h1] at ht
          exact absurd ht (by decide)
      have hwf2 : ∀ e ∈ (⟨st.committed ++
              ⟨st.nextId, "Shot", resolvedName (step + 1) sd, some sid,
                sd.description.getD ""⟩ :: ext1,
            [], st.nextId + (ext1.length + 1)⟩ : Store).committed,
          ∀ q, e.parentId = some q →
            q < (⟨st.committed ++
                ⟨st.nextId, "Shot", resolvedName (step + 1) sd, some sid,
                  sd.description.getD ""⟩ :: ext1,
              [], st.nextId + (ext1.length + 1)⟩ : Store).nextId := by
        intro e he q hq
        simp only [List.mem_append, List.mem_cons] at he
        simp only []
        rcases he with he0 | rfl | he1
        · have := hwf e he0 q hq
          omega
        · cases hq
          omega
        · obtain ⟨h1, h2, h3, h4⟩ := hext1 e he1
          rw [h2] at hq
          cases hq
          omega
      obtain ⟨ext2, tn2, msgs, heq2, hlen2, hext2, hcov2⟩ := ih (step + 1)
        ⟨st.committed ++
            ⟨st.nextId, "Shot", resolvedName (step + 1) sd, some sid,
              sd.description.getD ""⟩ :: ext1,
          [], st.nextId + (ext1.length + 1)⟩
        { r with shotsCreated := r.shotsCreated + 1,
                 tasksCreated := r.tasksCreated + (parseTaskTypes sd.taskTypes).length,
                 conformTasksCreated := r.conformTasksCreated + 1,
                 thumbnailsUploaded := r.thumbnailsUploaded + tn1 }
        hfresh2
        (by have h := hnd; simp only [resolvedShots, List.nodup_cons] at h; exact h.2)
        rfl hwf2 (by simp only []; omega)
      refine ⟨⟨st.nextId, "Shot", resolvedName (step + 1) sd, some sid,
          sd.description.getD ""⟩ :: ext1 ++ ext2, tn1 + tn2,  msgs, ?_, ?_, ?_, ?_⟩
      · rw [heq2]
        simp only [Prod.mk.injEq, Store.mk.injEq, BatchResult.mk.injEq, and_true, true_and,
          resolvedShots, List.countP_cons, taskTotal, List.length_cons, List.length_append,
          List.append_assoc, List.cons_append, List.nil_append, hfail, Bool.not_false,
          eq_self_iff_true, if_true, if_false, Bool.false_eq_true, and_self]
        omega
      · simpa [resolvedShots, List.countP_cons, hfail] using hlen2
      · intro e he
        simp only [List.cons_append, List.mem_cons, List.mem_append] at he
        simp only [List.length_cons, List.length_append]
        rcases he with rfl | he1 | he2
        · exact ⟨Or.inl ⟨rfl, rfl⟩, by simp only []; omega, by simp only []; omega,
            by simp only []; rintro q hq; cases hq; omega⟩
        · obtain ⟨h1, h2, h3, h4⟩ := hext1 e he1
          refine ⟨Or.inr h1, by omega, by omega, ?_⟩
          rintro q hq
          rw [h2] at hq
          cases hq
          omega
        · obtain ⟨h1, h2, h3, h4⟩ := hext2 e he2
          simp only at h2 h3 h4
          exact ⟨h1, by omega, by omega, fun q hq => by have := h4 q hq; omega⟩
      · intro hb
        simp only [CoveredShots]
        refine ⟨?_, ?_⟩
        · simp only [List.cons_append]
          rw [queryFirst_hit st.committed (ext1 ++ ext2) [] _
            ⟨st.nextId, "Shot", resolvedName (step + 1) sd, some sid,
              sd.description.getD ""⟩
            "Shot" (resolvedName (step + 1) sd) sid
            (hfresh _ (by simp [resolvedShots])) ⟨rfl, rfl, rfl⟩]
          rfl
        · have hcov := hcov2 hb
          convert hcov using 1
          simp only [Store.mk.injEq, List.cons_append, List.append_assoc,
            List.length_cons, List.length_append, true_and, and_true]
          try omega

end FlameFtrack

namespace FlameFtrack

/-- Coverage of a group's shots survives appending entities. -/
theorem coveredShots_extend (st : Store) (ext pend : List Entity) (k sid : Nat)
    (sds : List ShotData) (step : Nat) (h : CoveredShots st sid sds step) :
    CoveredShots ⟨st.committed ++ ext, pend, k⟩ sid sds step := by
  induction sds generalizing step with
  | nil => simp [CoveredShots]
  | cons sd rest ih =>
    simp only [CoveredShots] at h ⊢
    obtain ⟨h1, h2⟩ := h
    refine ⟨?_, ih (step + 1) h2⟩
    obtain ⟨e, he⟩ := Option.isSome_iff_exists.mp h1
    rw [queryFirst_extend_some st ext pend k _ _ _ e he]
    rfl

/-- Coverage of whole groups survives appending entities, provided no
appended sequence shadows a covered group resolved through the Folder
fallback. -/
theorem coveredGroups_extend (st : Store) (ext pend : List Entity) (k pid : Nat)
    (gs : List (String × List ShotData)) (step : Nat) (h : CoveredGroups st pid gs step)
    (hnoseq : ∀ e ∈ ext, e.etype = "Sequence" → e.name ∉ gs.map Prod.fst) :
    CoveredGroups ⟨st.committed ++ ext, pend, k⟩ pid gs step := by
  induction gs generalizing step with
  | nil => simp [CoveredGroups]
  | cons g rest ih =>
    obtain ⟨sn, sds⟩ := g
    simp only [CoveredGroups] at h ⊢
    obtain ⟨⟨e, he, hsh⟩, h2⟩ := h
    refine ⟨⟨e, ?_, coveredShots_extend st ext pend k _ _ _ hsh⟩,
      ih (step + sds.length) h2 (fun e2 he2 ht hmem =>
        hnoseq e2 he2 ht
          (by simp only [List.map_cons, List.mem_cons]; right; exact hmem))⟩
    rcases he with he | ⟨he1, he2⟩
    · exact Or.inl (queryFirst_extend_some st ext pend k _ _ _ e he)
    · refine Or.inr ⟨?_, queryFirst_extend_some st ext pend k _ _ _ e he2⟩
      refine queryFirst_extend_none st ext pend k _ _ _ he1 ?_
      rintro e2 he2 ⟨ht, hn, -⟩
      refine (hnoseq e2 he2 ht) ?_
      rw [hn]
      simp only [List.map_cons]
      exact List.mem_cons_self _ _

end FlameFtrack

namespace FlameFtrack

theorem countP_pairs_map (sn : String) (p : String × String → Bool) (names : List String) :
    List.countP p (names.map fun n => (sn, n)) = names.countP (fun n => p (sn, n)) := by
  induction names with
  | nil => simp
  | cons a l ih2 => simp [List.countP_cons, ih2]

/-- Master lemma for a whole fresh batch: with benign sequence/task/conform
creation and a store containing none of the groups' sequence (or folder)
names and only parent references below the id counter, the group loop
creates one sequence per group, and per surviving row one shot and one
conform task plus its user tasks, recording one error per rejected row. -/
theorem processGroups_fresh (env : Env) (pid : Nat)
    (gs : List (String × List ShotData)) (step : Nat) (st : Store) (r : BatchResult)
    (hfs : ∀ n, env.failSeqCreate n = false)
    (hft : ∀ n, env.failTaskCreate n = false)
    (hfc : ∀ i, env.failConformCreate i = false)
    (hseq : ∀ g ∈ gs, queryFirst st "Sequence" g.1 pid = none ∧
      queryFirst st "Folder" g.1 pid = none)
    (hkeys : (gs.map Prod.fst).Nodup)
    (hnd : (resolvedPairs gs step).Nodup)
    (hp : st.pending = [])
    (hwf : ∀ e ∈ st.committed, ∀ q, e.parentId = some q → q < st.nextId)
    (hpid : pid < st.nextId) :
    ∃ ext tn msgs,
      processGroups env false pid gs step st r =
        (⟨st.committed ++ ext, [], st.nextId + ext.length⟩,
         { r with
             sequencesCreated := r.sequencesCreated + gs.length,
             shotsCreated := r.shotsCreated +
               (resolvedPairs gs step).countP (fun pr => !env.failShotCreate pr.2),
             tasksCreated := r.tasksCreated + taskTotalGroups env.failShotCreate gs step,
             conformTasksCreated := r.conformTasksCreated +
               (resolvedPairs gs step).countP (fun pr => !env.failShotCreate pr.2),
             thumbnailsUploaded := r.thumbnailsUploaded + tn,
             errors := r.errors ++ msgs },
         step + totalShots gs) ∧
      msgs.length = (resolvedPairs gs step).countP (fun pr => env.failShotCreate pr.2) ∧
      (∀ e ∈ ext, ((e.etype = "Sequence" ∧ e.name ∈ gs.map Prod.fst) ∨
          e.etype = "Shot" ∨ e.etype = "Task") ∧
        (∀ q, e.parentId = some q → q < st.nextId + ext.length)) ∧
      ((∀ n, env.failShotCreate n = false) →
        CoveredGroups ⟨st.committed ++ ext, [], st.nextId + ext.length⟩ pid gs step) := by
  induction gs generalizing step st r with
  | nil =>
    refine ⟨[], 0, [], ?_, rfl, by simp, ?_⟩
    · obtain ⟨c, pend, k⟩ := st
      simp only at hp
      subst hp
      simp [processGroups, resolvedPairs, taskTotalGroups, totalShots]
    · intro _
      simp [CoveredGroups]
  | cons g rest ih =>
    obtain ⟨sn, sds⟩ := g
    simp only [processGroups]
    rw [if_neg (by decide)]
    have hseqh := hseq (sn, sds) (List.mem_cons_self _ _)
    rw [get_or_create_sequence_fresh env st pid sn hseqh.1 hseqh.2 (hfs sn) hp]
    simp only []
    have hsnkey : sn ∉ rest.map Prod.fst := by
      have h := hkeys
      simp only [List.map_cons, List.nodup_cons] at h
      exact h.1
    have hndpairs := hnd
    simp only [resolvedPairs] at hndpairs
    have hnd1 : (resolvedShots sds step).Nodup :=
      (hndpairs.of_append_left).of_map
    have hnd2 : (resolvedPairs rest (step + sds.length)).Nodup :=
      hndpairs.of_append_right
    have hfresh1 : ∀ n ∈ resolvedShots sds step,
        queryFirst ⟨st.committed ++ [⟨st.nextId, "Sequence", sn, some pid, ""⟩],
          [], st.nextId + 1⟩ "Shot" n st.nextId = none := by
      intro n hn
      refine queryFirst_extend_none st _ [] _ "Shot" n st.nextId
        (queryFirst_none_of_fresh_parent st _ _ _ hwf (le_refl _)) ?_
      rintro e he ⟨ht, -, -⟩
      rw [List.mem_singleton] at he
      subst he
      simp at ht
    have hwf1 : ∀ e ∈ (⟨st.committed ++ [⟨st.nextId, "Sequence", sn, some pid, ""⟩],
          [], st.nextId + 1⟩ : Store).committed, ∀ q, e.parentId = some q →
          q < (⟨st.committed ++ [⟨st.nextId, "Sequence", sn, some pid, ""⟩],
            [], st.nextId + 1⟩ : Store).nextId := by
      intro e he q hq
      simp only [List.mem_append, List.mem_singleton] at he
      simp only []
      rcases he with he0 | rfl
      · have := hwf e he0 q hq
        omega
      · cases hq
        omega
    obtain ⟨ext1, tn1, msgs1, heq1, hlen1, hext1, hcov1⟩ := processShots_fresh env
      st.nextId sn sds step
      ⟨st.committed ++ [⟨st.nextId, "Sequence", sn, some pid, ""⟩], [], st.nextId + 1⟩
      { r with sequencesCreated := r.sequencesCreated + 1 }
      hft hfc hfresh1 hnd1 rfl hwf1 (by simp only []; omega)
    rw [heq1]
    have hseq2 : ∀ g2 ∈ rest,
        queryFirst ⟨(st.committed ++ [⟨st.nextId, "Sequence", sn, some pid, ""⟩]) ++ ext1,
          [], st.nextId + 1 + ext1.length⟩ "Sequence" g2.1 pid = none ∧
        queryFirst ⟨(st.committed ++ [⟨st.nextId, "Sequence", sn, some pid, ""⟩]) ++ ext1,
          [], st.nextId + 1 + ext1.length⟩ "Folder" g2.1 pid = none := by
      intro g2 hg2
      have hbase := hseq g2 (List.mem_cons_of_mem _ hg2)
      have hkey : g2.1 ≠ sn := by
        intro hcontra
        exact hsnkey (hcontra ▸ List.mem_map_of_mem Prod.fst hg2)
      constructor
      · refine queryFirst_extend_none
          ⟨st.committed ++ [⟨st.nextId, "Sequence", sn, some pid, ""⟩], [], st.nextId + 1⟩
          ext1 [] _ "Sequence" g2.1 pid ?_ ?_
        · refine queryFirst_extend_none st _ [] _ "Sequence" g2.1 pid hbase.1 ?_
          rintro e he ⟨-, hnm, -⟩
          rw [List.mem_singleton] at he
          subst he
          exact hkey (by simpa using hnm.symm)
        · rintro e he ⟨ht, -, -⟩
          rcases (hext1 e he).1 with ⟨h1, -⟩ | h1 <;> rw [h1] at ht <;>
            exact absurd ht (by decide)
      · refine queryFirst_extend_none
          ⟨st.committed ++ [⟨st.nextId, "Sequence", sn, some pid, ""⟩], [], st.nextId + 1⟩
          ext1 [] _ "Folder" g2.1 pid ?_ ?_
        · refine queryFirst_extend_none st _ [] _ "Folder" g2.1 pid hbase.2 ?_
          rintro e he ⟨ht, -, -⟩
          rw [List.mem_singleton] at he
          subst he
          simp at ht
        · rintro e he ⟨ht, -, -⟩
          rcases (hext1 e he).1 with ⟨h1, -⟩ | h1 <;> rw [h1] at ht <;>
            exact absurd ht (by decide)
    have hwf2 : ∀ e ∈ (⟨(st.committed ++ [⟨st.nextId, "Sequence", sn, some pid, ""⟩]) ++ ext1,
          [], st.nextId + 1 + ext1.length⟩ : Store).committed, ∀ q, e.parentId = some q →
          q < (⟨(st.committed ++ [⟨st.nextId, "Sequence", sn, some pid, ""⟩]) ++ ext1,
            [], st.nextId + 1 + ext1.length⟩ : Store).nextId := by
      intro e he q hq
      simp only [List.mem_append, List.mem_singleton] at he
      simp only []
      rcases he with (he0 | rfl) | he1
      · have := hwf e he0 q hq
        omega
      · cases hq
        omega
      · obtain ⟨-, -, -, h4⟩ := hext1 e he1
        have := h4 q hq
        simp only at this
        omega
    obtain ⟨ext2, tn2, msgs2, heq2, hlen2, hext2, hcov2⟩ := ih (step + sds.length)
      ⟨(st.committed ++ [⟨st.nextId, "Sequence", sn, some pid, ""⟩]) ++ ext1,
        [], st.nextId + 1 + ext1.length⟩
      { { r with sequencesCreated := r.sequencesCreated + 1 } with
          shotsCreated := r.shotsCreated +
            (resolvedShots sds step).countP (fun n => !env.failShotCreate n),
          tasksCreated := r.tasksCreated + taskTotal env.failShotCreate sds step,
          conformTasksCreated := r.conformTasksCreated +
            (resolvedShots sds step).countP (fun n => !env.failShotCreate n),
          thumbnailsUploaded := r.thumbnailsUploaded + tn1,
          errors := r.errors ++ msgs1 }
      hseq2
      (by have h := hkeys; simp only [List.map_cons, List.nodup_cons] at h; exact h.2)
      hnd2 rfl hwf2 (by simp only []; omega)
    refine ⟨⟨st.nextId, "Sequence", sn, some pid, ""⟩ :: ext1 ++ ext2, tn1 + tn2,
      msgs1 ++ msgs2, ?_, ?_, ?_, ?_⟩
    · rw [heq2]
      simp only [Prod.mk.injEq, Store.mk.injEq, BatchResult.mk.injEq, and_true, true_and,
        resolvedPairs, taskTotalGroups, totalShots, List.countP_append, countP_pairs_map,
        List.length_cons, List.length_append, List.append_assoc, List.cons_append,
        List.nil_append, List.map_cons, List.map_map, List.sum_cons, and_self]
      omega
    · simp only [List.length_append, hlen1, hlen2, resolvedPairs, List.countP_append,
        countP_pairs_map]
    · intro e he
      simp only [List.cons_append, List.mem_cons, List.mem_append] at he
      simp only [List.length_cons, List.length_append, List.map_cons, List.mem_cons]
      rcases he with rfl | he1 | he2
      · exact ⟨Or.inl ⟨rfl, Or.inl rfl⟩, by rintro q hq; cases hq; omega⟩
      · obtain ⟨h1, h2, h3, h4⟩ := hext1 e he1
        refine ⟨?_, ?_⟩
        · rcases h1 with ⟨ha, -⟩ | ha
          · exact Or.inr (Or.inl ha)
          · exact Or.inr (Or.inr ha)
        · intro q hq
          have := h4 q hq
          simp only at this
          omega
      · obtain ⟨h1, h2⟩ := hext2 e he2
        refine ⟨?_, ?_⟩
        · rcases h1 with ⟨ha, hb⟩ | ha | ha
          · exact Or.inl ⟨ha, Or.inr hb⟩
          · exact Or.inr (Or.inl ha)
          · exact Or.inr (Or.inr ha)
        · intro q hq
          have := h2 q hq
          simp only at this
          omega
    · intro hb
      simp only [CoveredGroups]
      refine ⟨⟨⟨st.nextId, "Sequence", sn, some pid, ""⟩, Or.inl ?_, ?_⟩, ?_⟩
      · simp only [List.cons_append]
        exact queryFirst_hit st.committed (ext1 ++ ext2) [] _ _ "Sequence" sn pid
          hseqh.1 ⟨rfl, rfl, rfl⟩
      · have hc1 := hcov1 hb
        have hc1e := coveredShots_extend
          ⟨(st.committed ++ [⟨st.nextId, "Sequence", sn, some pid, ""⟩]) ++ ext1,
            [], st.nextId + 1 + ext1.length⟩
          ext2 []
          (st.nextId + (⟨st.nextId, "Sequence", sn, some pid, ""⟩ :: ext1 ++ ext2).length)
          st.nextId sds step hc1
        convert hc1e using 1
        simp only [Store.mk.injEq, List.cons_append, List.singleton_append,
          List.nil_append, List.append_assoc, List.length_cons, List.length_append,
          true_and, and_true]
        try omega
      · have hc2 := hcov2 hb
        convert hc2 using 1
        simp only [Store.mk.injEq, List.cons_append, List.singleton_append,
          List.nil_append, List.append_assoc, List.length_cons, List.length_append,
          true_and, and_true]
        try omega

end FlameFtrack

namespace FlameFtrack

theorem conformStep_dry (env : Env) (shot : ShotRes) (st : Store) (r : BatchResult)
    (hex : shot.existed = false) :
    conformStep env true shot st r =
      (st, { r with conformTasksCreated := r.conformTasksCreated + 1 }) := by
  simp [conformStep, hex]

/-- A dry per-task loop counts every type and leaves the store alone. -/
theorem processTasks_dry (env : Env) (sid : Nat) (sn status : String)
    (tts : List String) (st : Store) (r : BatchResult) :
    processTasks env true sid sn status tts st r =
      (st, { r with tasksCreated := r.tasksCreated + tts.length }) := by
  induction tts generalizing r with
  | nil => simp [processTasks]
  | cons tt rest ih =>
    simp only [processTasks]
    rw [if_true, ih]
    simp only [Prod.mk.injEq, BatchResult.mk.injEq, List.length_cons, true_and, and_true]
    omega

/-- A dry row counts its shot, its conform task, its task types and at most
one thumbnail, touching nothing in the store. -/
theorem processShot_dry (env : Env) (sid : Nat) (sn : String) (step : Nat)
    (sd : ShotData) (st : Store) (r : BatchResult) :
    ∃ tn, tn ≤ 1 ∧ processShot env true sid sn step sd st r =
      (st, { r with shotsCreated := r.shotsCreated + 1,
                    tasksCreated := r.tasksCreated + (parseTaskTypes sd.taskTypes).length,
                    conformTasksCreated := r.conformTasksCreated + 1,
                    thumbnailsUploaded := r.thumbnailsUploaded + tn }) := by
  simp only [processShot]
  rw [if_true]
  simp only []
  rw [if_true]
  rw [conformStep_dry env ⟨0, resolvedName step sd, false⟩ st _ rfl]
  rw [processTasks_dry]
  obtain ⟨tn, htn, hThumb⟩ := thumbStep_eq env true 0 sd.thumbnailPath st
    { { { r with shotsCreated := r.shotsCreated + 1 } with
        conformTasksCreated := r.conformTasksCreated + 1 } with
      tasksCreated := r.tasksCreated + (parseTaskTypes sd.taskTypes).length }
  rw [hThumb]
  exact ⟨tn, htn, by simp only [Prod.mk.injEq, BatchResult.mk.injEq, and_self, and_true,
    true_and]⟩

/-- A dry group counts every row. -/
theorem processShots_dry (env : Env) (sid : Nat) (sn : String)
    (sds : List ShotData) (step : Nat) (st : Store) (r : BatchResult) :
    ∃ tn,
      processShots env true sid sn sds step st r =
        (st, { r with shotsCreated := r.shotsCreated + sds.length,
                      tasksCreated := r.tasksCreated + taskTotal (fun _ => false) sds step,
                      conformTasksCreated := r.conformTasksCreated + sds.length,
                      thumbnailsUploaded := r.thumbnailsUploaded + tn },
          step + sds.length) := by
  induction sds generalizing step st r with
  | nil =>
    refine ⟨0, ?_⟩
    simp [processShots, taskTotal]
  | cons sd rest ih =>
    simp only [processShots]
    obtain ⟨tn1, htn1, heq1⟩ := processShot_dry env sid sn (step + 1) sd st r
    rw [heq1]
    obtain ⟨tn2, heq2⟩ := ih (step + 1) st
      { r with shotsCreated := r.shotsCreated + 1,
               tasksCreated := r.tasksCreated + (parseTaskTypes sd.taskTypes).length,
               conformTasksCreated := r.conformTasksCreated + 1,
               thumbnailsUploaded := r.thumbnailsUploaded + tn1 }
    rw [heq2]
    refine ⟨tn1 + tn2, ?_⟩
    simp only [Prod.mk.injEq, BatchResult.mk.injEq, List.length_cons, taskTotal,
      Bool.false_eq_true, if_false, true_and, and_true, and_self]
    omega

/-- A dry batch counts every group and row and leaves the store untouched. -/
theorem processGroups_dry (env : Env) (pid : Nat)
    (gs : List (String × List ShotData)) (step : Nat) (st : Store) (r : BatchResult) :
    ∃ tn,
      processGroups env true pid gs step st r =
        (st, { r with sequencesCreated := r.sequencesCreated + gs.length,
                      shotsCreated := r.shotsCreated + totalShots gs,
                      tasksCreated := r.tasksCreated + taskTotalGroups (fun _ => false) gs step,
                      conformTasksCreated := r.conformTasksCreated + totalShots gs,
                      thumbnailsUploaded := r.thumbnailsUploaded + tn },
          step + totalShots gs) := by
  induction gs generalizing step st r with
  | nil =>
    refine ⟨0, ?_⟩
    simp [processGroups, totalShots, taskTotalGroups]
  | cons g rest ih =>
    obtain ⟨sn, sds⟩ := g
    simp only [processGroups]
    rw [if_true]
    obtain ⟨tn1, heq1⟩ := processShots_dry env 0 sn sds step st
      { r with sequencesCreated := r.sequencesCreated + 1 }
    rw [heq1]
    obtain ⟨tn2, heq2⟩ := ih (step + sds.length) st _
    rw [heq2]
    refine ⟨tn1 + tn2, ?_⟩
    simp only [Prod.mk.injEq, BatchResult.mk.injEq, totalShots, taskTotalGroups,
      List.map_cons, List.sum_cons, List.length_cons, true_and, and_true, and_self]
    omega

end FlameFtrack

namespace FlameFtrack

theorem resolvedShots_length (sds : List ShotData) (step : Nat) :
    (resolvedShots sds step).length = sds.length := by
  induction sds generalizing step with
  | nil => simp [resolvedShots]
  | cons sd rest ih => simp [resolvedShots, ih]

theorem resolvedPairs_length (gs : List (String × List ShotData)) (step : Nat) :
    (resolvedPairs gs step).length = totalShots gs := by
  induction gs generalizing step with
  | nil => simp [resolvedPairs, totalShots]
  | cons g rest ih =>
    obtain ⟨sn, sds⟩ := g
    simp [resolvedPairs, totalShots, resolvedShots_length, ih]

theorem insertGroup_keys (acc : List (String × List ShotData)) (k : String)
    (sd : ShotData) :
    (insertGroup acc k sd).map Prod.fst =
      if k ∈ acc.map Prod.fst then acc.map Prod.fst else acc.map Prod.fst ++ [k] := by
  induction acc with
  | nil => simp [insertGroup]
  | cons g rest ih =>
    obtain ⟨k', l⟩ := g
    simp only [insertGroup]
    split
    · rename_i hk
      subst hk
      simp
    · rename_i hk
      by_cases hmem : k ∈ rest.map Prod.fst
      · simp [ih, hmem, Ne.symm hk]
      · simp [ih, hmem, Ne.symm hk]

theorem groupBySequence_keys_nodup (records : List ShotData)
    (acc : List (String × List ShotData)) (h : (acc.map Prod.fst).Nodup) :
    ((groupBySequence records acc).map Prod.fst).Nodup := by
  induction records generalizing acc with
  | nil => simpa [groupBySequence]
  | cons sd rest ih =>
    simp only [groupBySequence]
    apply ih
    rw [insertGroup_keys]
    split
    · exact h
    · rename_i hmem
      simp [List.nodup_append, h, hmem]

theorem getById_projectStore (pid : Nat) :
    getById (projectStore pid) "Project" pid = some ⟨pid, "Project", "PROJ", none, ""⟩ := by
  simp [getById, projectStore, List.find?]

theorem queryFirst_projectStore (pid : Nat) (t n : String) (p : Nat)
    (ht : t ≠ "Project") : queryFirst (projectStore pid) t n p = none := by
  rw [queryFirst, List.find?_eq_none]
  intro e he
  simp only [projectStore, List.mem_singleton] at he
  subst he
  simp only [Bool.and_eq_true, beq_iff_eq, not_and]
  intro h1
  exact absurd h1.1.symm ht

theorem projectStore_wf (pid : Nat) :
    ∀ e ∈ (projectStore pid).committed, ∀ q, e.parentId = some q →
      q < (projectStore pid).nextId := by
  intro e he q hq
  simp only [projectStore, List.mem_singleton] at he
  subst he
  cases hq

/-- The final `success` recomputation changes neither the counters nor the
error list nor the store. -/
theorem runBatchBody_proj (env : Env) (st : Store) (pid : Nat)
    (records : List ShotData) (dry : Bool) (r : BatchResult) :
    (runBatchBody env st pid records dry r).2 =
      (processGroups env dry pid (groupBySequence records []) 0 st r).1 ∧
    (runBatchBody env st pid records dry r).1.sequencesCreated =
      (processGroups env dry pid (groupBySequence records []) 0 st r).2.1.sequencesCreated ∧
    (runBatchBody env st pid records dry r).1.shotsCreated =
      (processGroups env dry pid (groupBySequence records []) 0 st r).2.1.shotsCreated ∧
    (runBatchBody env st pid records dry r).1.shotsExisted =
      (processGroups env dry pid (groupBySequence records []) 0 st r).2.1.shotsExisted ∧
    (runBatchBody env st pid records dry r).1.tasksCreated =
      (processGroups env dry pid (groupBySequence records []) 0 st r).2.1.tasksCreated ∧
    (runBatchBody env st pid records dry r).1.conformTasksCreated =
      (processGroups env dry pid (groupBySequence records []) 0 st r).2.1.conformTasksCreated ∧
    (runBatchBody env st pid records dry r).1.errors =
      (processGroups env dry pid (groupBySequence records []) 0 st r).2.1.errors := by
  simp only [runBatchBody]
  split <;> simp

/-- With a validated project, the batch reduces to its body started from the
initial result carrying the project name. -/
theorem create_shots_from_table_validated (env : Env) (st : Store) (pid : Nat)
    (records : List ShotData) (dry : Bool) (e : Entity)
    (hok : env.failProjectGet = false) (hproj : getById st "Project" pid = some e) :
    create_shots_from_table env st pid records dry true =
      runBatchBody env st pid records dry
        { initResult dry with projectName := some e.name } := by
  simp [create_shots_from_table, hok, hproj]

end FlameFtrack

namespace FlameFtrack

/-! ## C3 — dry-run equivalence -/

/-- C3 counterexample: on an empty store, two rows naming the same shot
(`S/A` twice) give `shots_created = 2` and `conform_tasks_created = 2` under
`dry_run=True` but `shots_created = 1`, `shots_existed = 1` and
`conform_tasks_created = 1` under `dry_run=False` — the two modes do not
produce identical counters for every input. -/
theorem C3_counterexample :
    (create_shots_from_table benv (projectStore 7) 7 [plainRow "A", plainRow "A"]
      true true).1.shotsCreated = 2 ∧
    (create_shots_from_table benv (projectStore 7) 7 [plainRow "A", plainRow "A"]
      false true).1.shotsCreated = 1 ∧
    (create_shots_from_table benv (projectStore 7) 7 [plainRow "A", plainRow "A"]
      true true).1.conformTasksCreated = 2 ∧
    (create_shots_from_table benv (projectStore 7) 7 [plainRow "A", plainRow "A"]
      false true).1.conformTasksCreated = 1 ∧
    (create_shots_from_table benv (projectStore 7) 7 [plainRow "A", plainRow "A"]
      false true).1.shotsExisted = 1 := by
  decide

/-- C3 amended: for rows whose resolved `(sequence, shot name)` pairs are
pairwise distinct, a dry run and a real run against the empty store produce
identical `sequences_created`, `shots_created`, `conform_tasks_created` and
`tasks_created`, and the dry run leaves the store untouched. -/
theorem C3_amended_dry_run_equivalence (f g : String → Bool) (pid : Nat)
    (records : List ShotData)
    (hnd : (resolvedPairs (groupBySequence records []) 0).Nodup) :
    (create_shots_from_table (benignEnv f g) (projectStore pid) pid records
        true true).1.sequencesCreated =
      (create_shots_from_table (benignEnv f g) (projectStore pid) pid records
        false true).1.sequencesCreated ∧
    (create_shots_from_table (benignEnv f g) (projectStore pid) pid records
        true true).1.shotsCreated =
      (create_shots_from_table (benignEnv f g) (projectStore pid) pid records
        false true).1.shotsCreated ∧
    (create_shots_from_table (benignEnv f g) (projectStore pid) pid records
        true true).1.conformTasksCreated =
      (create_shots_from_table (benignEnv f g) (projectStore pid) pid records
        false true).1.conformTasksCreated ∧
    (create_shots_from_table (benignEnv f g) (projectStore pid) pid records
        true true).1.tasksCreated =
      (create_shots_from_table (benignEnv f g) (projectStore pid) pid records
        false true).1.tasksCreated ∧
    (create_shots_from_table (benignEnv f g) (projectStore pid) pid records
        true true).2 = projectStore pid := by
  rw [create_shots_from_table_validated (benignEnv f g) (projectStore pid) pid records
    true _ rfl (getById_projectStore pid)]
  rw [create_shots_from_table_validated (benignEnv f g) (projectStore pid) pid records
    false _ rfl (getById_projectStore pid)]
  simp only []
  obtain ⟨hDst, hDseq, hDsh, hDex, hDta, hDco, hDerr⟩ :=
    runBatchBody_proj (benignEnv f g) (projectStore pid) pid records true
      { initResult true with projectName := some "PROJ" }
  obtain ⟨hRst, hRseq, hRsh, hRex, hRta, hRco, hRerr⟩ :=
    runBatchBody_proj (benignEnv f g) (projectStore pid) pid records false
      { initResult false with projectName := some "PROJ" }
  obtain ⟨tnD, hdry⟩ := processGroups_dry (benignEnv f g) pid
    (groupBySequence records []) 0 (projectStore pid)
    { initResult true with projectName := some "PROJ" }
  obtain ⟨ext, tnR, msgs, hreal, hlen, -, -⟩ := processGroups_fresh (benignEnv f g) pid
    (groupBySequence records []) 0 (projectStore pid)
    { initResult false with projectName := some "PROJ" }
    (fun _ => rfl) (fun _ => rfl) (fun _ => rfl)
    (fun g2 _ => ⟨queryFirst_projectStore pid "Sequence" g2.1 pid (by decide),
      queryFirst_projectStore pid "Folder" g2.1 pid (by decide)⟩)
    (groupBySequence_keys_nodup records [] (by simp))
    hnd rfl (projectStore_wf pid) (by simp [projectStore])
  refine ⟨?_, ?_, ?_, ?_, ?_⟩
  · rw [hDseq, hRseq, hdry, hreal]
    simp [initResult]
  · rw [hDsh, hRsh, hdry, hreal]
    simp [initResult, benignEnv, List.countP_true, resolvedPairs_length]
  · rw [hDco, hRco, hdry, hreal]
    simp [initResult, benignEnv, List.countP_true, resolvedPairs_length]
  · rw [hDta, hRta, hdry, hreal]
    have hbe : (benignEnv f g).failShotCreate = (fun _ => false) := rfl
    rw [hbe]
    simp [initResult]
  · rw [hDst, hdry]

end FlameFtrack

namespace FlameFtrack

/-- Witness for C3 amended: two rows with distinct shot names in sequence `S`
satisfy the distinctness hypothesis, and dry run and real run agree on
`shots_created`. -/
theorem C3_amended_dry_run_equivalence_witness :
    (create_shots_from_table (benignEnv noOracle noOracle) (projectStore 7) 7
      [plainRow "A", plainRow "B"] true true).1.shotsCreated =
    (create_shots_from_table (benignEnv noOracle noOracle) (projectStore 7) 7
      [plainRow "A", plainRow "B"] false true).1.shotsCreated :=
  (C3_amended_dry_run_equivalence noOracle noOracle 7 [plainRow "A", plainRow "B"]
    (by decide)).2.1

end FlameFtrack

namespace FlameFtrack

theorem countP_not_add_countP {α : Type} (p : α → Bool) (l : List α) :
    l.countP (fun a => !p a) + l.countP p = l.length := by
  induction l with
  | nil => rfl
  | cons a t ih =>
    cases h : p a <;> simp [List.countP_cons, h] <;> omega

/-- C4: against a fresh project store, if the shot-creation failure oracle
fires on exactly one of the resolved shot names (and resolved pairs are
distinct), the batch reports exactly one error and creates all remaining
shots: `shots_created = N - 1` for `N` input records. -/
theorem C4_partial_failure_isolation (env : Env) (pid : Nat)
    (records : List ShotData)
    (hfp : env.failProjectGet = false)
    (hfs : ∀ n, env.failSeqCreate n = false)
    (hft : ∀ n, env.failTaskCreate n = false)
    (hfc : ∀ i, env.failConformCreate i = false)
    (hnd : (resolvedPairs (groupBySequence records []) 0).Nodup)
    (hone : (resolvedPairs (groupBySequence records []) 0).countP
      (fun pr => env.failShotCreate pr.2) = 1) :
    (create_shots_from_table env (projectStore pid) pid records
      false true).1.errors.length = 1 ∧
    (create_shots_from_table env (projectStore pid) pid records
      false true).1.shotsCreated = records.length - 1 := by
  rw [create_shots_from_table_validated env (projectStore pid) pid records
    false _ hfp (getById_projectStore pid)]
  simp only []
  obtain ⟨hRst, hRseq, hRsh, hRex, hRta, hRco, hRerr⟩ :=
    runBatchBody_proj env (projectStore pid) pid records false
      { initResult false with projectName := some "PROJ" }
  obtain ⟨ext, tnR, msgs, hreal, hlen, -, -⟩ := processGroups_fresh env pid
    (groupBySequence records []) 0 (projectStore pid)
    { initResult false with projectName := some "PROJ" }
    hfs hft hfc
    (fun g2 _ => ⟨queryFirst_projectStore pid "Sequence" g2.1 pid (by decide),
      queryFirst_projectStore pid "Folder" g2.1 pid (by decide)⟩)
    (groupBySequence_keys_nodup records [] (by simp))
    hnd rfl (projectStore_wf pid) (by simp [projectStore])
  have hlenp : (resolvedPairs (groupBySequence records []) 0).length =
      records.length := by
    rw [resolvedPairs_length, totalShots_groupBySequence]
    simp [totalShots]
  constructor
  · rw [hRerr, hreal]
    simp only [initResult, List.nil_append]
    rw [hlen, hone]
  · rw [hRsh, hreal]
    simp only [initResult]
    have hsum := countP_not_add_countP
      (fun pr => env.failShotCreate pr.2)
      (resolvedPairs (groupBySequence records []) 0)
    omega

end FlameFtrack

namespace FlameFtrack

/-- Witness for C4: rows `A`, `B`, `C` with shot `B` rejected by the store
give exactly one error and two created shots. -/
theorem C4_partial_failure_isolation_witness :
    (create_shots_from_table failBEnv (projectStore 7) 7
      [plainRow "A", plainRow "B", plainRow "C"] false true).1.errors.length = 1 ∧
    (create_shots_from_table failBEnv (projectStore 7) 7
      [plainRow "A", plainRow "B", plainRow "C"] false true).1.shotsCreated = 2 :=
  C4_partial_failure_isolation failBEnv 7 [plainRow "A", plainRow "B", plainRow "C"]
    rfl (fun _ => rfl) (fun _ => rfl) (fun _ => rfl) (by decide) (by decide)

end FlameFtrack

namespace FlameFtrack

/-- C6 amended: a record whose `Shot Name` is the empty string is not
skipped — against any fresh project store it is processed like any other
record, incrementing `sequences_created`, `shots_created` and
`conform_tasks_created` by one each, with no error recorded. -/
theorem C6_amended_empty_name_processed (f g : String → Bool) (pid : Nat) :
    (create_shots_from_table (benignEnv f g) (projectStore pid) pid [plainRow ""]
      false true).1.shotsCreated = 1 ∧
    (create_shots_from_table (benignEnv f g) (projectStore pid) pid [plainRow ""]
      false true).1.sequencesCreated = 1 ∧
    (create_shots_from_table (benignEnv f g) (projectStore pid) pid [plainRow ""]
      false true).1.conformTasksCreated = 1 ∧
    (create_shots_from_table (benignEnv f g) (projectStore pid) pid [plainRow ""]
      false true).1.errors = [] := by
  rw [create_shots_from_table_validated (benignEnv f g) (projectStore pid) pid
    [plainRow ""] false _ rfl (getById_projectStore pid)]
  simp only []
  obtain ⟨hRst, hRseq, hRsh, hRex, hRta, hRco, hRerr⟩ :=
    runBatchBody_proj (benignEnv f g) (projectStore pid) pid [plainRow ""] false
      { initResult false with projectName := some "PROJ" }
  obtain ⟨ext, tnR, msgs, hreal, hlen, -, -⟩ := processGroups_fresh (benignEnv f g) pid
    (groupBySequence [plainRow ""] []) 0 (projectStore pid)
    { initResult false with projectName := some "PROJ" }
    (fun _ => rfl) (fun _ => rfl) (fun _ => rfl)
    (fun g2 _ => ⟨queryFirst_projectStore pid "Sequence" g2.1 pid (by decide),
      queryFirst_projectStore pid "Folder" g2.1 pid (by decide)⟩)
    (by decide) (by decide) rfl (projectStore_wf pid) (by simp [projectStore])
  have hmsgs : msgs = [] := by
    have h0 : msgs.length = 0 := by
      rw [hlen]; simp [benignEnv]
    exact List.eq_nil_of_length_eq_zero h0
  refine ⟨?_, ?_, ?_, ?_⟩
  · rw [hRsh, hreal]
    simp [initResult, benignEnv]
    decide
  · rw [hRseq, hreal]
    simp [initResult]
    decide
  · rw [hRco, hreal]
    simp [initResult, benignEnv]
    decide
  · rw [hRerr, hreal]
    simp only [initResult, List.nil_append]
    exact hmsgs

/-- C7 amended: a record with no `Task Types` key reconciles zero user
tasks — the wrapper defaults `task_types` to the empty list, not to
`["Compositing"]` — while its shot is still created. -/
theorem C7_amended_default_task_types (f g : String → Bool) (pid : Nat) :
    (create_shots_from_table (benignEnv f g) (projectStore pid) pid [plainRow "X"]
      false true).1.tasksCreated = 0 ∧
    (create_shots_from_table (benignEnv f g) (projectStore pid) pid [plainRow "X"]
      false true).1.shotsCreated = 1 := by
  rw [create_shots_from_table_validated (benignEnv f g) (projectStore pid) pid
    [plainRow "X"] false _ rfl (getById_projectStore pid)]
  simp only []
  obtain ⟨hRst, hRseq, hRsh, hRex, hRta, hRco, hRerr⟩ :=
    runBatchBody_proj (benignEnv f g) (projectStore pid) pid [plainRow "X"] false
      { initResult false with projectName := some "PROJ" }
  obtain ⟨ext, tnR, msgs, hreal, hlen, -, -⟩ := processGroups_fresh (benignEnv f g) pid
    (groupBySequence [plainRow "X"] []) 0 (projectStore pid)
    { initResult false with projectName := some "PROJ" }
    (fun _ => rfl) (fun _ => rfl) (fun _ => rfl)
    (fun g2 _ => ⟨queryFirst_projectStore pid "Sequence" g2.1 pid (by decide),
      queryFirst_projectStore pid "Folder" g2.1 pid (by decide)⟩)
    (by decide) (by decide) rfl (projectStore_wf pid) (by simp [projectStore])
  constructor
  · rw [hRta, hreal]
    have hbe : (benignEnv f g).failShotCreate = (fun _ => false) := rfl
    simp only [initResult, hbe]
    decide
  · rw [hRsh, hreal]
    simp [initResult, benignEnv]
    decide

end FlameFtrack

namespace FlameFtrack

/-- Second-run analogue of `processShots_fresh`: when every row of the group
resolves to an already existing shot, the loop reports every row as existing,
creates no shot and no conform task, re-creates only user tasks, and appends
only `Task` entities. -/
theorem processShots_covered (env : Env) (sid : Nat) (sn : String)
    (sds : List ShotData) (step : Nat) (st : Store) (r : BatchResult)
    (hft : ∀ n, env.failTaskCreate n = false)
    (hcov : CoveredShots st sid sds step)
    (hp : st.pending = []) :
    ∃ ext tn ws,
      processShots env false sid sn sds step st r =
        (⟨st.committed ++ ext, [], st.nextId + ext.length⟩,
         { r with shotsExisted := r.shotsExisted + sds.length,
                  tasksCreated := r.tasksCreated + taskTotal (fun _ => false) sds step,
                  thumbnailsUploaded := r.thumbnailsUploaded + tn,
                  warnings := r.warnings ++ ws },
         step + sds.length) ∧
      ∀ e2 ∈ ext, e2.etype = "Task" := by
  induction sds generalizing step st r with
  | nil =>
    refine ⟨[], 0, [], ?_, by simp⟩
    obtain ⟨c, pend, k⟩ := st
    simp only at hp
    subst hp
    simp [processShots, taskTotal]
  | cons sd rest ih =>
    simp only [CoveredShots] at hcov
    obtain ⟨h1, h2⟩ := hcov
    obtain ⟨e, he⟩ := Option.isSome_iff_exists.mp h1
    simp only [processShots]
    obtain ⟨ext0, tn0, htn0, heq0, hext0⟩ :=
      processShot_existing env sid sn (step + 1) sd st r e he hft hp
    rw [heq0]
    have hcov2 : CoveredShots ⟨st.committed ++ ext0, [], st.nextId + ext0.length⟩
        sid rest (step + 1) := coveredShots_extend st ext0 [] _ sid rest (step + 1) h2
    obtain ⟨ext1, tn1, ws1, heq1, hext1⟩ := ih (step + 1)
      ⟨st.committed ++ ext0, [], st.nextId + ext0.length⟩
      { r with shotsExisted := r.shotsExisted + 1,
               tasksCreated := r.tasksCreated + (parseTaskTypes sd.taskTypes).length,
               thumbnailsUploaded := r.thumbnailsUploaded + tn0,
               warnings := r.warnings ++
                 ["Shot already existed: " ++ sn ++ "/" ++ resolvedName (step + 1) sd] }
      hcov2 rfl
    refine ⟨ext0 ++ ext1, tn0 + tn1,
      ["Shot already existed: " ++ sn ++ "/" ++ resolvedName (step + 1) sd] ++ ws1, ?_, ?_⟩
    · rw [heq1]
      simp only [Prod.mk.injEq, Store.mk.injEq, BatchResult.mk.injEq, List.append_assoc,
        List.length_append, List.length_cons, taskTotal, and_true, true_and,
        eq_self_iff_true, if_false, Bool.false_eq_true]
      omega
    · intro e2 he2
      rcases List.mem_append.mp he2 with h | h
      · exact (hext0 e2 h).1
      · exact hext1 e2 h

end FlameFtrack

namespace FlameFtrack

/-- Second-run analogue of `processGroups_fresh`: over a store that already
covers every group, the loop finds every sequence and every shot, creating no
shot and no conform task; every row is counted in `shots_existed`, while
`sequences_created` still increments once per group (the counter does not
distinguish found from created sequences). -/
theorem processGroups_covered (env : Env) (pid : Nat)
    (gs : List (String × List ShotData)) (step : Nat) (st : Store) (r : BatchResult)
    (hft : ∀ n, env.failTaskCreate n = false)
    (hcov : CoveredGroups st pid gs step)
    (hp : st.pending = []) :
    ∃ ext tn ws,
      processGroups env false pid gs step st r =
        (⟨st.committed ++ ext, [], st.nextId + ext.length⟩,
         { r with sequencesCreated := r.sequencesCreated + gs.length,
                  shotsExisted := r.shotsExisted + totalShots gs,
                  tasksCreated := r.tasksCreated + taskTotalGroups (fun _ => false) gs step,
                  thumbnailsUploaded := r.thumbnailsUploaded + tn,
                  warnings := r.warnings ++ ws },
         step + totalShots gs) ∧
      ∀ e2 ∈ ext, e2.etype = "Task" := by
  induction gs generalizing step st r with
  | nil =>
    refine ⟨[], 0, [], ?_, by simp⟩
    obtain ⟨c, pend, k⟩ := st
    simp only at hp
    subst hp
    simp [processGroups, totalShots, taskTotalGroups]
  | cons g rest ih =>
    obtain ⟨sn, sds⟩ := g
    simp only [CoveredGroups] at hcov
    obtain ⟨⟨e, he, hsh⟩, h2⟩ := hcov
    simp only [processGroups]
    rw [if_neg (by decide)]
    have hseq : FtrackConnection.get_or_create_sequence env st pid sn = .ok (e, st) := by
      rcases he with he1 | ⟨he1, he2⟩
      · exact get_or_create_sequence_found env st pid sn e he1
      · exact get_or_create_sequence_found_folder env st pid sn e he1 he2
    rw [hseq]
    simp only []
    obtain ⟨ext0, tn0, ws0, heq0, hext0⟩ := processShots_covered env e.id sn sds step st
      { r with sequencesCreated := r.sequencesCreated + 1 } hft hsh hp
    rw [heq0]
    have hcov2 : CoveredGroups ⟨st.committed ++ ext0, [], st.nextId + ext0.length⟩
        pid rest (step + sds.length) :=
      coveredGroups_extend st ext0 [] _ pid rest (step + sds.length) h2
        (fun e2 he2 ht _ => absurd ((hext0 e2 he2).symm.trans ht) (by decide))
    obtain ⟨ext1, tn1, ws1, heq1, hext1⟩ := ih (step + sds.length)
      ⟨st.committed ++ ext0, [], st.nextId + ext0.length⟩
      { r with sequencesCreated := r.sequencesCreated + 1,
               shotsExisted := r.shotsExisted + sds.length,
               tasksCreated := r.tasksCreated + taskTotal (fun _ => false) sds step,
               thumbnailsUploaded := r.thumbnailsUploaded + tn0,
               warnings := r.warnings ++ ws0 }
      hcov2 rfl
    refine ⟨ext0 ++ ext1, tn0 + tn1, ws0 ++ ws1, ?_, ?_⟩
    · rw [heq1]
      simp only [Prod.mk.injEq, Store.mk.injEq, BatchResult.mk.injEq, List.append_assoc,
        List.length_append, List.length_cons, totalShots, taskTotalGroups, List.map_cons,
        List.sum_cons, and_true, true_and]
      omega
    · intro e2 he2
      rcases List.mem_append.mp he2 with h | h
      · exact hext0 e2 h
      · exact hext1 e2 h

end FlameFtrack

namespace FlameFtrack

/-- C1: with benign store behaviour and rows whose resolved
`(sequence, shot)` pairs are distinct, the first batch run creates all
`N` shots, and re-running the identical batch against the resulting store
creates `0` shots and reports all `N` as existing; moreover the reconciler
returns a found shot as is — the store, and with it every field of the
existing entity, is untouched. -/
theorem C1_idempotency (f g : String → Bool) (pid : Nat) (records : List ShotData)
    (hnd : (resolvedPairs (groupBySequence records []) 0).Nodup) :
    ((create_shots_from_table (benignEnv f g) (projectStore pid) pid records
        false true).1.shotsCreated = records.length ∧
     (create_shots_from_table (benignEnv f g)
        (create_shots_from_table (benignEnv f g) (projectStore pid) pid records
          false true).2 pid records false true).1.shotsCreated = 0 ∧
     (create_shots_from_table (benignEnv f g)
        (create_shots_from_table (benignEnv f g) (projectStore pid) pid records
          false true).2 pid records false true).1.shotsExisted = records.length) ∧
    (∀ env st sid n d e2, queryFirst st "Shot" n sid = some e2 →
      FtrackConnection._create_shot_entity env st sid n d =
        Except.ok (⟨e2.id, e2.name, true⟩, st)) := by
  obtain ⟨hRst, hRseq, hRsh, hRex, hRta, hRco, hRerr⟩ :=
    runBatchBody_proj (benignEnv f g) (projectStore pid) pid records false
      { initResult false with projectName := some "PROJ" }
  obtain ⟨ext, tnR, msgs, hreal, hlen, hextP, hcovP⟩ := processGroups_fresh (benignEnv f g) pid
    (groupBySequence records []) 0 (projectStore pid)
    { initResult false with projectName := some "PROJ" }
    (fun _ => rfl) (fun _ => rfl) (fun _ => rfl)
    (fun g2 _ => ⟨queryFirst_projectStore pid "Sequence" g2.1 pid (by decide),
      queryFirst_projectStore pid "Folder" g2.1 pid (by decide)⟩)
    (groupBySequence_keys_nodup records [] (by simp))
    hnd rfl (projectStore_wf pid) (by simp [projectStore])
  have hcov := hcovP (fun n => rfl)
  have hget1 : getById ⟨(projectStore pid).committed ++ ext, [],
      (projectStore pid).nextId + ext.length⟩ "Project" pid =
      some ⟨pid, "Project", "PROJ", none, ""⟩ := by
    have h := getById_projectStore pid
    simp only [getById] at h ⊢
    exact find?_append_some _ _ ext _ h
  obtain ⟨h2st, h2seq, h2sh, h2ex, h2ta, h2co, h2err⟩ :=
    runBatchBody_proj (benignEnv f g)
      ⟨(projectStore pid).committed ++ ext, [], (projectStore pid).nextId + ext.length⟩
      pid records false { initResult false with projectName := some "PROJ" }
  obtain ⟨ext2, tn2, ws2, hreal2, -⟩ := processGroups_covered (benignEnv f g) pid
    (groupBySequence records []) 0
    ⟨(projectStore pid).committed ++ ext, [], (projectStore pid).nextId + ext.length⟩
    { initResult false with projectName := some "PROJ" }
    (fun _ => rfl) hcov rfl
  rw [create_shots_from_table_validated (benignEnv f g) (projectStore pid) pid records
    false _ rfl (getById_projectStore pid)]
  simp only []
  rw [hRst, hRsh, hreal]
  simp only []
  rw [create_shots_from_table_validated (benignEnv f g)
    ⟨(projectStore pid).committed ++ ext, [], (projectStore pid).nextId + ext.length⟩
    pid records false _ rfl hget1]
  simp only []
  rw [h2sh, h2ex, hreal2]
  have ht : totalShots (groupBySequence records []) = records.length := by
    rw [totalShots_groupBySequence]
    simp [totalShots]
  refine ⟨⟨?_, ?_, ?_⟩,
    fun env st sid n d e2 hq => _create_shot_entity_existing env st sid n d e2 hq⟩
  · simp [initResult, benignEnv, List.countP_true, resolvedPairs_length, ht]
  · simp [initResult]
  · simp [initResult, ht]

end FlameFtrack

namespace FlameFtrack

/-- Witness for C1: re-running the two-row batch `A`, `B` over the store the
first run produced creates zero shots and reports both as existing. -/
theorem C1_idempotency_witness :
    (create_shots_from_table (benignEnv noOracle noOracle)
      (create_shots_from_table (benignEnv noOracle noOracle) (projectStore 7) 7
        [plainRow "A", plainRow "B"] false true).2 7 [plainRow "A", plainRow "B"]
      false true).1.shotsCreated = 0 ∧
    (create_shots_from_table (benignEnv noOracle noOracle)
      (create_shots_from_table (benignEnv noOracle noOracle) (projectStore 7) 7
        [plainRow "A", plainRow "B"] false true).2 7 [plainRow "A", plainRow "B"]
      false true).1.shotsExisted = 2 :=
  ⟨(C1_idempotency noOracle noOracle 7 [plainRow "A", plainRow "B"] (by decide)).1.2.1,
   (C1_idempotency noOracle noOracle 7 [plainRow "A", plainRow "B"] (by decide)).1.2.2⟩

end FlameFtrack

namespace FlameFtrack

/-- Exhaustive behaviour of a task create under an arbitrary session: either
the server rejects it, or exactly one `Task` entity with the given
description is committed. -/
theorem create_task_cases (env : Env) (st : Store) (sid : Nat)
    (tt status nm desc' : String) (hp : st.pending = []) :
    FtrackConnection.create_task env st sid tt status (some nm) desc' =
        .error ("server rejected task " ++ nm) ∨
      FtrackConnection.create_task env st sid tt status (some nm) desc' =
        .ok ((st.nextId, nm),
          ⟨st.committed ++ [⟨st.nextId, "Task", nm, some sid, desc'⟩], [], st.nextId + 1⟩) := by
  cases hf : env.failTaskCreate nm with
  | true =>
    left
    simp [FtrackConnection.create_task, hf]
  | false =>
    right
    exact create_task_ok env st sid tt status nm desc' hf hp

/-- Exhaustive behaviour of the conform-task create: either its internal
handler swallows a failure (`none`, store untouched), or exactly one marker
task parented at the given shot is committed. -/
theorem create_conform_task_cases (env : Env) (st : Store) (sid : Nat)
    (hp : st.pending = []) :
    FtrackConnection.create_conform_task env st sid = none ∨
      FtrackConnection.create_conform_task env st sid =
        some ((st.nextId, "conform"),
          ⟨st.committed ++ [⟨st.nextId, "Task", "conform", some sid,
            FtrackConnection.conformDesc⟩], [], st.nextId + 1⟩) := by
  cases hg : getTyped st sid with
  | none =>
    left
    simp [FtrackConnection.create_conform_task, hg]
  | some e =>
    cases hfc : env.failConformCreate sid with
    | true =>
      left
      simp [FtrackConnection.create_conform_task, hg, hfc]
    | false =>
      right
      exact create_conform_task_benign env st sid (by rw [getTyped] at hg ⊢; rw [hg]; rfl)
        hfc hp

/-- Exhaustive behaviour of the shot reconciler: found (store untouched),
rejected, or exactly one `Shot` entity committed. -/
theorem _create_shot_entity_cases (env : Env) (st : Store) (sid : Nat) (n d : String)
    (hp : st.pending = []) :
    (∃ e, queryFirst st "Shot" n sid = some e ∧
        FtrackConnection._create_shot_entity env st sid n d =
          .ok (⟨e.id, e.name, true⟩, st)) ∨
      FtrackConnection._create_shot_entity env st sid n d =
        .error ("server rejected shot " ++ n) ∨
      FtrackConnection._create_shot_entity env st sid n d =
        .ok (⟨st.nextId, n, false⟩,
          ⟨st.committed ++ [⟨st.nextId, "Shot", n, some sid, d⟩], [], st.nextId + 1⟩) := by
  cases hq : queryFirst st "Shot" n sid with
  | some e => exact Or.inl ⟨e, rfl, _create_shot_entity_existing env st sid n d e hq⟩
  | none =>
    cases hf : env.failShotCreate n with
    | true => exact Or.inr (Or.inl (_create_shot_entity_failing env st sid n d hq hf))
    | false => exact Or.inr (Or.inr (_create_shot_entity_fresh env st sid n d hq hf hp))

/-- Exhaustive behaviour of the sequence reconciler: error, found as is, or
one new `Sequence`/`Folder` entity committed. -/
theorem get_or_create_sequence_cases (env : Env) (st : Store) (pid : Nat) (sn : String)
    (hp : st.pending = []) :
    (∃ msg, FtrackConnection.get_or_create_sequence env st pid sn = .error msg) ∨
      (∃ e, FtrackConnection.get_or_create_sequence env st pid sn = .ok (e, st)) ∨
      (∃ t, t ≠ "Task" ∧ FtrackConnection.get_or_create_sequence env st pid sn =
        .ok (⟨st.nextId, t, sn, some pid, ""⟩,
          ⟨st.committed ++ [⟨st.nextId, t, sn, some pid, ""⟩], [], st.nextId + 1⟩)) := by
  cases h1 : queryFirst st "Sequence" sn pid with
  | some e => exact Or.inr (Or.inl ⟨e, get_or_create_sequence_found env st pid sn e h1⟩)
  | none =>
    cases h2 : queryFirst st "Folder" sn pid with
    | some e =>
      exact Or.inr (Or.inl ⟨e, get_or_create_sequence_found_folder env st pid sn e h1 h2⟩)
    | none =>
      cases hf : env.failSeqCreate sn with
      | false =>
        exact Or.inr (Or.inr ⟨"Sequence", by decide,
          get_or_create_sequence_fresh env st pid sn h1 h2 hf hp⟩)
      | true =>
        cases hff : env.failFolderCreate sn with
        | true =>
          exact Or.inl ⟨"Folder create failed: " ++ sn,
            by simp [FtrackConnection.get_or_create_sequence, h1, h2, hf, hff]⟩
        | false =>
          refine Or.inr (Or.inr ⟨"Folder", by decide, ?_⟩)
          simp [FtrackConnection.get_or_create_sequence, h1, h2, hf, hff, createCommit,
            sessionCreate, commitS, hp]

/-- Under any session, the user-task loop appends only entities with empty
description. -/
theorem processTasks_markers (env : Env) (sid : Nat) (sn status : String)
    (tts : List String) (st : Store) (r : BatchResult) (hp : st.pending = []) :
    ∃ ext, (processTasks env false sid sn status tts st r).1 =
        ⟨st.committed ++ ext, [], st.nextId + ext.length⟩ ∧
      ∀ e ∈ ext, e.description = "" := by
  induction tts generalizing st r with
  | nil =>
    refine ⟨[], ?_, by simp⟩
    obtain ⟨c, pend, k⟩ := st
    simp only at hp
    subst hp
    simp [processTasks]
  | cons tt rest ih =>
    simp only [processTasks]
    rw [if_neg (by decide)]
    rcases create_task_cases env st sid tt status (toTaskName tt) "" hp with h | h
    · rw [h]
      simp only []
      exact ih st _ hp
    · rw [h]
      simp only []
      obtain ⟨ext1, heq1, hd1⟩ := ih
        ⟨st.committed ++ [⟨st.nextId, "Task", toTaskName tt, some sid, ""⟩], [],
          st.nextId + 1⟩
        { r with tasksCreated := r.tasksCreated + 1 } rfl
      refine ⟨⟨st.nextId, "Task", toTaskName tt, some sid, ""⟩ :: ext1, ?_, ?_⟩
      · rw [heq1]
        simp only [Store.mk.injEq, List.append_assoc, List.singleton_append,
          List.length_cons, and_true, true_and]
        omega
      · intro e he
        rcases List.mem_cons.mp he with rfl | he1
        · rfl
        · exact hd1 e he1

end FlameFtrack

namespace FlameFtrack

/-- Under any session, processing one row only appends entities, and every
appended conform-marker task is parented at an id at least `b` whenever `b`
bounds the fresh-id counter — i.e. at an entity created after that bound. -/
theorem processShot_markers (env : Env) (b sid : Nat) (sn : String) (step : Nat)
    (sd : ShotData) (st : Store) (r : BatchResult)
    (hp : st.pending = []) (hb : b ≤ st.nextId) :
    ∃ ext, (processShot env false sid sn step sd st r).1 =
        ⟨st.committed ++ ext, [], st.nextId + ext.length⟩ ∧
      ∀ e ∈ ext, e.etype = "Task" → e.description = FtrackConnection.conformDesc →
        ∀ p, e.parentId = some p → b ≤ p := by
  simp only [processShot]
  rw [if_neg (by decide)]
  rcases _create_shot_entity_cases env st sid (resolvedName step sd)
      (sd.description.getD "") hp with ⟨e, hq, h⟩ | h | h
  · rw [h]
    simp only []
    rw [conformStep_existed env false ⟨e.id, e.name, true⟩ st _ rfl]
    obtain ⟨ext1, heq1, hd1⟩ := processTasks_markers env e.id (resolvedName step sd)
      (sd.status.getD "not_started") (parseTaskTypes sd.taskTypes) st _ hp
    rw [thumbStep_store, heq1]
    refine ⟨ext1, rfl, ?_⟩
    intro e2 he2 _ hdesc
    exact absurd ((hd1 e2 he2).symm.trans hdesc) (by decide)
  · rw [h]
    simp only []
    refine ⟨[], ?_, by simp⟩
    obtain ⟨c, pend, k⟩ := st
    simp only at hp
    subst hp
    simp
  · rw [h]
    simp only []
    rcases create_conform_task_cases env
        ⟨st.committed ++ [⟨st.nextId, "Shot", resolvedName step sd, some sid,
          sd.description.getD ""⟩], [], st.nextId + 1⟩ st.nextId rfl with hc | hc
    · simp only [conformStep, Bool.false_eq_true, if_false]
      rw [hc]
      simp only []
      obtain ⟨ext1, heq1, hd1⟩ := processTasks_markers env st.nextId (resolvedName step sd)
        (sd.status.getD "not_started") (parseTaskTypes sd.taskTypes)
        ⟨st.committed ++ [⟨st.nextId, "Shot", resolvedName step sd, some sid,
          sd.description.getD ""⟩], [], st.nextId + 1⟩ _ rfl
      rw [thumbStep_store, heq1]
      refine ⟨⟨st.nextId, "Shot", resolvedName step sd, some sid,
        sd.description.getD ""⟩ :: ext1, ?_, ?_⟩
      · simp only [Store.mk.injEq, List.append_assoc, List.singleton_append,
          List.length_cons, and_true, true_and]
        omega
      · intro e2 he2 het hdesc
        rcases List.mem_cons.mp he2 with rfl | he3
        · simp at het
        · exact absurd ((hd1 e2 he3).symm.trans hdesc) (by decide)
    · rw [conformStep_created env ⟨st.nextId, resolvedName step sd, false⟩ _ _ _ _ rfl hc]
      simp only []
      obtain ⟨ext1, heq1, hd1⟩ := processTasks_markers env st.nextId (resolvedName step sd)
        (sd.status.getD "not_started") (parseTaskTypes sd.taskTypes)
        ⟨(st.committed ++ [⟨st.nextId, "Shot", resolvedName step sd, some sid,
            sd.description.getD ""⟩]) ++
          [⟨st.nextId + 1, "Task", "conform", some st.nextId,
            FtrackConnection.conformDesc⟩], [], st.nextId + 1 + 1⟩ _ rfl
      rw [thumbStep_store, heq1]
      refine ⟨⟨st.nextId, "Shot", resolvedName step sd, some sid, sd.description.getD ""⟩ ::
        ⟨st.nextId + 1, "Task", "conform", some st.nextId, FtrackConnection.conformDesc⟩ ::
        ext1, ?_, ?_⟩
      · simp only [Store.mk.injEq, List.append_assoc, List.singleton_append,
          List.cons_append, List.nil_append, List.length_cons, and_true, true_and]
        omega
      · intro e2 he2 het hdesc
        rcases List.mem_cons.mp he2 with rfl | he3
        · simp at het
        rcases List.mem_cons.mp he3 with rfl | he4
        · intro p hp2
          cases hp2
          exact hb
        · exact absurd ((hd1 e2 he4).symm.trans hdesc) (by decide)

/-- `processShot_markers` folded over the rows of one group. -/
theorem processShots_markers (env : Env) (b sid : Nat) (sn : String)
    (sds : List ShotData) (step : Nat) (st : Store) (r : BatchResult)
    (hp : st.pending = []) (hb : b ≤ st.nextId) :
    ∃ ext, (processShots env false sid sn sds step st r).1 =
        ⟨st.committed ++ ext, [], st.nextId + ext.length⟩ ∧
      ∀ e ∈ ext, e.etype = "Task" → e.description = FtrackConnection.conformDesc →
        ∀ p, e.parentId = some p → b ≤ p := by
  induction sds generalizing step st r with
  | nil =>
    refine ⟨[], ?_, by simp⟩
    obtain ⟨c, pend, k⟩ := st
    simp only at hp
    subst hp
    simp [processShots]
  | cons sd rest ih =>
    simp only [processShots]
    obtain ⟨ext0, heq0, hm0⟩ := processShot_markers env b sid sn (step + 1) sd st r hp hb
    rw [heq0]
    obtain ⟨ext1, heq1, hm1⟩ := ih (step + 1)
      ⟨st.committed ++ ext0, [], st.nextId + ext0.length⟩
      (processShot env false sid sn (step + 1) sd st r).2 rfl (by simp only []; omega)
    rw [heq1]
    refine ⟨ext0 ++ ext1, ?_, ?_⟩
    · simp only [Store.mk.injEq, List.append_assoc, List.length_append, and_true, true_and]
      omega
    · intro e2 he2
      rcases List.mem_append.mp he2 with h | h
      · exact hm0 e2 h
      · exact hm1 e2 h

end FlameFtrack

namespace FlameFtrack

/-- `processShots_markers` folded over all sequence groups. -/
theorem processGroups_markers (env : Env) (b pid : Nat)
    (gs : List (String × List ShotData)) (step : Nat) (st : Store) (r : BatchResult)
    (hp : st.pending = []) (hb : b ≤ st.nextId) :
    ∃ ext, (processGroups env false pid gs step st r).1 =
        ⟨st.committed ++ ext, [], st.nextId + ext.length⟩ ∧
      ∀ e ∈ ext, e.etype = "Task" → e.description = FtrackConnection.conformDesc →
        ∀ p, e.parentId = some p → b ≤ p := by
  induction gs generalizing step st r with
  | nil =>
    refine ⟨[], ?_, by simp⟩
    obtain ⟨c, pend, k⟩ := st
    simp only at hp
    subst hp
    simp [processGroups]
  | cons g rest ih =>
    obtain ⟨sn, sds⟩ := g
    simp only [processGroups]
    rw [if_neg (by decide)]
    rcases get_or_create_sequence_cases env st pid sn hp with ⟨msg, h⟩ | ⟨e, h⟩ | ⟨t, ht, h⟩
    · rw [h]
      simp only []
      exact ih step st _ hp hb
    · rw [h]
      simp only []
      obtain ⟨ext0, heq0, hm0⟩ := processShots_markers env b e.id sn sds step st _ hp hb
      rw [heq0]
      obtain ⟨ext1, heq1, hm1⟩ := ih
        (processShots env false e.id sn sds step st
          { r with sequencesCreated := r.sequencesCreated + 1 }).2.2
        ⟨st.committed ++ ext0, [], st.nextId + ext0.length⟩ _ rfl
        (by simp only []; omega)
      rw [heq1]
      refine ⟨ext0 ++ ext1, ?_, ?_⟩
      · simp only [Store.mk.injEq, List.append_assoc, List.length_append, and_true, true_and]
        omega
      · intro e2 he2
        rcases List.mem_append.mp he2 with h2 | h2
        · exact hm0 e2 h2
        · exact hm1 e2 h2
    · rw [h]
      simp only []
      obtain ⟨ext0, heq0, hm0⟩ := processShots_markers env b st.nextId sn sds step
        ⟨st.committed ++ [⟨st.nextId, t, sn, some pid, ""⟩], [], st.nextId + 1⟩ _ rfl
        (by simp only []; omega)
      rw [heq0]
      obtain ⟨ext1, heq1, hm1⟩ := ih
        (processShots env false st.nextId sn sds step
          ⟨st.committed ++ [⟨st.nextId, t, sn, some pid, ""⟩], [], st.nextId + 1⟩
          { r with sequencesCreated := r.sequencesCreated + 1 }).2.2
        ⟨(⟨st.committed ++ [⟨st.nextId, t, sn, some pid, ""⟩], [],
            st.nextId + 1⟩ : Store).committed ++ ext0, [],
          (⟨st.committed ++ [⟨st.nextId, t, sn, some pid, ""⟩], [],
            st.nextId + 1⟩ : Store).nextId + ext0.length⟩ _ rfl
        (by simp only []; omega)
      rw [heq1]
      refine ⟨⟨st.nextId, t, sn, some pid, ""⟩ :: (ext0 ++ ext1), ?_, ?_⟩
      · simp only [Store.mk.injEq, List.append_assoc, List.singleton_append,
          List.cons_append, List.length_append, List.length_cons, List.nil_append,
          and_true, true_and]
        omega
      · intro e2 he2 het hdesc
        rcases List.mem_cons.mp he2 with rfl | he3
        · exact absurd het ht
        rcases List.mem_append.mp he3 with h2 | h2
        · exact hm0 e2 h2 het hdesc
        · exact hm1 e2 h2 het hdesc

end FlameFtrack

namespace FlameFtrack

/-- Appending entities whose conform markers are all parented at or above the
fresh-id bound cannot change the conform count of any pre-existing id. -/
theorem conformCount_extend (st : Store) (ext pend : List Entity) (k i : Nat)
    (hm : ∀ t ∈ ext, t.etype = "Task" → t.description = FtrackConnection.conformDesc →
      ∀ p, t.parentId = some p → st.nextId ≤ p)
    (hi : i < st.nextId) :
    conformCount ⟨st.committed ++ ext, pend, k⟩ i = conformCount st i := by
  simp only [conformCount, List.countP_append]
  have h0 : ext.countP (fun t => t.etype == "Task" && t.name == "conform" &&
      t.description == FtrackConnection.conformDesc && t.parentId == some i) = 0 := by
    rw [List.countP_eq_zero]
    intro t htm hpred
    simp only [Bool.and_eq_true, beq_iff_eq] at hpred
    obtain ⟨⟨⟨ht1, ht2⟩, ht3⟩, ht4⟩ := hpred
    have := hm t htm ht1 ht3 i ht4
    omega
  omega

/-- C2: the conform block is a no-op for a shot reported as existing, and
for any session, any well-formed starting store and any batch input, the
real run adds no conform-marker task under any entity that predates the
batch: the conform count of every pre-existing shot is unchanged. -/
theorem C2_conform_exclusivity (env : Env) (st : Store) (pid : Nat)
    (records : List ShotData) (vp : Bool) (hwf : StoreWf st) :
    (∀ dry (shot : ShotRes) st0 r, shot.existed = true →
      conformStep env dry shot st0 r = (st0, r)) ∧
    ∀ e ∈ st.committed, e.etype = "Shot" →
      conformCount (create_shots_from_table env st pid records false vp).2 e.id =
        conformCount st e.id := by
  refine ⟨fun dry shot st0 r hex => conformStep_existed env dry shot st0 r hex, ?_⟩
  intro e he _
  have hid : e.id < st.nextId := (hwf.2 e he).1
  have hp : st.pending = [] := hwf.1
  simp only [create_shots_from_table]
  cases vp with
  | false =>
    simp only [Bool.false_eq_true, if_false]
    obtain ⟨ext, heq, hm⟩ := processGroups_markers env st.nextId pid
      (groupBySequence records []) 0 st (initResult false) hp (Nat.le_refl _)
    rw [(runBatchBody_proj env st pid records false (initResult false)).1, heq]
    exact conformCount_extend st ext [] _ e.id hm hid
  | true =>
    simp only [eq_self_iff_true, if_true]
    cases hfp : env.failProjectGet with
    | true =>
      rfl
    | false =>
      simp only [Bool.false_eq_true, if_false]
      cases hgp : getById st "Project" pid with
      | none => rfl
      | some project =>
        simp only []
        obtain ⟨ext, heq, hm⟩ := processGroups_markers env st.nextId pid
          (groupBySequence records []) 0 st
          { initResult false with projectName := some project.name } hp (Nat.le_refl _)
        rw [(runBatchBody_proj env st pid records false
          { initResult false with projectName := some project.name }).1, heq]
        exact conformCount_extend st ext [] _ e.id hm hid

end FlameFtrack

namespace FlameFtrack

/-- Witness for C2: running the batch over a store that already holds shot
`S/A` (id 9) leaves the conform count of that shot unchanged. -/
theorem C2_conform_exclusivity_witness :
    conformCount (create_shots_from_table benv
      ⟨[⟨7, "Project", "PROJ", none, ""⟩, ⟨8, "Sequence", "S", some 7, ""⟩,
        ⟨9, "Shot", "A", some 8, ""⟩], [], 10⟩ 7 [plainRow "A", plainRow "B"]
      false true).2 9 =
    conformCount (⟨[⟨7, "Project", "PROJ", none, ""⟩, ⟨8, "Sequence", "S", some 7, ""⟩,
        ⟨9, "Shot", "A", some 8, ""⟩], [], 10⟩ : Store) 9 :=
  (C2_conform_exclusivity benv
    ⟨[⟨7, "Project", "PROJ", none, ""⟩, ⟨8, "Sequence", "S", some 7, ""⟩,
      ⟨9, "Shot", "A", some 8, ""⟩], [], 10⟩ 7 [plainRow "A", plainRow "B"] true
    (by
      refine ⟨rfl, ?_⟩
      intro e he
      simp only [List.mem_cons, List.not_mem_nil, or_false] at he
      rcases he with rfl | rfl | rfl
      · exact ⟨by decide, fun p hp2 => Option.noConfusion hp2⟩
      · refine ⟨by decide, ?_⟩
        intro p hp2
        simp only [Option.some.injEq] at hp2
        subst hp2
        decide
      · refine ⟨by decide, ?_⟩
        intro p hp2
        simp only [Option.some.injEq] at hp2
        subst hp2
        decide)).2
    ⟨9, "Shot", "A", some 8, ""⟩ (by decide) rfl

end FlameFtrack
